import Mathlib

/-!
Verification development for the LaTeX-to-HTML preprocessing pipeline
(`app.py` and `simple_converter.py`).

Python strings are embedded as `List Char`; every text rewrite of the
source is translated into an executable Lean function over `List Char`.
Regular-expression based rewrites are embedded as explicit character
scanners that reproduce the behaviour of the concrete patterns used by
the source (all of them are of the simple forms `literal`,
`literal [^X]* X`, `literal [^X]+ X`, or a non-greedy scan to the next
occurrence of a closing literal).  File-system access is embedded as an
explicit map from paths to file contents, and the unbounded recursion of
the include resolver is embedded with an explicit fuel parameter
(`none` = the fuel ran out).
-/

set_option maxRecDepth 100000
set_option maxHeartbeats 4000000

namespace L2H

/-- Characters of a Lean string literal; Python strings are `List Char`. -/
def str (s : String) : List Char := s.data

/-- The `{` character (written numerically throughout). -/
def lbrace : Char := Char.ofNat 123

/-- The `}` character (written numerically throughout). -/
def rbrace : Char := Char.ofNat 125

/-- The backslash character. -/
def bslash : Char := '\\'

/-- `begins p s` is true when `p` is an initial segment of `s`. -/
def begins : List Char → List Char → Bool
  | [], _ => true
  | _ :: _, [] => false
  | p :: ps, c :: cs => p == c && begins ps cs

/-- Python's substring test `p in s`. -/
def containsSub (p : List Char) : List Char → Bool
  | [] => begins p []
  | c :: cs => begins p (c :: cs) || containsSub p cs

/-- Number of positions of `s` at which `p` starts (measure used in the
theorems; our marker patterns never overlap themselves). -/
def countSub (p : List Char) : List Char → Nat
  | [] => if begins p [] then 1 else 0
  | c :: cs => (if begins p (c :: cs) then 1 else 0) + countSub p cs

/-- First index at which `p` occurs in `s` (leftmost match). -/
def findSub (p : List Char) : List Char → Option Nat
  | [] => if begins p [] then some 0 else none
  | c :: cs => if begins p (c :: cs) then some 0 else (findSub p cs).map (· + 1)

/-- Python `s.endswith(p)`. -/
def endsWith (p s : List Char) : Bool := begins p.reverse s.reverse

/-- Python `s.split('\n')`. -/
def splitNl : List Char → List (List Char)
  | [] => [[]]
  | c :: cs =>
    if c == '\n' then [] :: splitNl cs
    else
      match splitNl cs with
      | l :: ls => (c :: l) :: ls
      | [] => [[c]]

/-- Python `'\n'.join(lines)`. -/
def joinNl : List (List Char) → List Char
  | [] => []
  | [l] => l
  | l :: ls => l ++ '\n' :: joinNl ls

/-- Whitespace characters stripped by Python's `str.strip()`
(the ASCII ones; the sources only ever produce these). -/
def isSpaceC (c : Char) : Bool :=
  c == ' ' || c == '\t' || c == '\n' || c == '\r' ||
  c == Char.ofNat 11 || c == Char.ofNat 12

/-- Python `s.strip()`. -/
def stripWs (l : List Char) : List Char :=
  ((l.dropWhile isSpaceC).reverse.dropWhile isSpaceC).reverse

/-- Leftmost-match search: the embedding of `re.search` for a pattern whose
single-position matcher is `step` (`step s` matches the pattern against the
very beginning of `s`). -/
def findMatch {α : Type} (step : List Char → Option α) : List Char → Option α
  | [] => step []
  | c :: cs =>
    match step (c :: cs) with
    | some r => some r
    | none => findMatch step cs

/-- Fueled global-rewrite scanner: the embedding of `re.sub`/`str.replace`.
`step s` either matches at the beginning of `s`, returning the replacement
text and the remainder after the match, or fails.  Every matcher used in
this file consumes at least one character, so fuel `s.length` (as supplied
by `runScan`) never runs out. -/
def scanF (step : List Char → Option (List Char × List Char)) :
    Nat → List Char → List Char
  | 0, s => s
  | _ + 1, [] => []
  | fuel + 1, c :: cs =>
    match step (c :: cs) with
    | some (out, rest) => out ++ scanF step fuel rest
    | none => c :: scanF step fuel cs

/-- Replace every (leftmost, non-overlapping) match of `step`. -/
def runScan (step : List Char → Option (List Char × List Char))
    (s : List Char) : List Char :=
  scanF step s.length s

/-- Single-position matcher for a literal pattern. -/
def tryLit (pat rep : List Char) (s : List Char) :
    Option (List Char × List Char) :=
  if pat ≠ [] ∧ begins pat s then some (rep, List.drop pat.length s) else none

/-- Python `s.replace(pat, rep)` (all occurrences, left to right). -/
def replaceAll (pat rep s : List Char) : List Char := runScan (tryLit pat rep) s

/-- Python `s.replace(pat, rep, 1)` (first occurrence only). -/
def replaceFirst (pat rep : List Char) : List Char → List Char
  | [] => []
  | c :: cs =>
    if pat ≠ [] ∧ begins pat (c :: cs) then
      rep ++ List.drop (pat.length - 1) cs
    else c :: replaceFirst pat rep cs

/-! ### Comment-aware splitter (`split_comment`, app.py lines 82-86) -/

/-- Scan for the first `%` not immediately preceded by a backslash:
the embedding of `re.search(r'(?<!\\)%', line)` returning the match index.
`prev` is the character just before the current position. -/
def findPctAux : Option Char → Nat → List Char → Option Nat
  | _, _, [] => none
  | prev, i, c :: cs =>
    if c == '%' && !(prev == some bslash) then some i
    else findPctAux (some c) (i + 1) cs

/-- `split_comment(line)`: split at the first unescaped `%`. -/
def splitComment (line : List Char) : List Char × List Char :=
  match findPctAux none 0 line with
  | some i => (line.take i, line.drop i)
  | none => (line, [])

/-- `goodCode prev u` holds when scanning `u` (with `prev` just before it)
meets no unescaped `%`, and `u` does not end in a backslash (so that a `%`
appended right after `u` is the line's first unescaped `%`). -/
def goodCode : Option Char → List Char → Bool
  | prev, [] => !(prev == some bslash)
  | prev, c :: cs =>
    if c == '%' && !(prev == some bslash) then false
    else goodCode (some c) cs

/-! ### Theorem-environment rewriter (`preprocess_latex`, app.py lines 56-123,
and `preprocess_latex_simple`, simple_converter.py lines 12-104) -/

/-- The fixed table `theorem_envs` of the source: environment keyword to
display name, in Python dict insertion order. -/
def theoremEnvs : List (List Char × List Char) :=
  [(str "definition", str "Definition"),
   (str "theorem", str "Theorem"),
   (str "lemma", str "Lemma"),
   (str "corollary", str "Corollary"),
   (str "proposition", str "Proposition"),
   (str "remark", str "Remark"),
   (str "example", str "Example"),
   (str "exercise", str "Exercise"),
   (str "proof", str "Proof")]

/-- The literal text `\begin{env}`. -/
def beginTok (env : List Char) : List Char :=
  str "\\begin\x7b" ++ env ++ str "\x7d"

/-- The literal text `\end{env}`. -/
def endTok (env : List Char) : List Char :=
  str "\\end\x7b" ++ env ++ str "\x7d"

/-- The replacement emitted for `\begin{env}` with no bracketed title:
`\begin{quote}\n\textbf{Disp:} ` (note the single trailing space). -/
def labelOpen (disp : List Char) : List Char :=
  str "\\begin\x7bquote\x7d\n\\textbf\x7b" ++ disp ++ str ":\x7d "

/-- The replacement emitted for `\begin{env}[title]`:
`\begin{quote}\n\textbf{Disp (title):} `. -/
def titleLabel (disp t : List Char) : List Char :=
  str "\\begin\x7bquote\x7d\n\\textbf\x7b" ++ disp ++ str " (" ++ t ++
    str "):\x7d "

/-- Single-position matcher for
`\\begin\{env\}(?:\[(?P<title>[^\]]+)\])?` with its replacement function
(app.py lines 106-114).  The optional bracket group is greedy and needs at
least one non-`]` character followed by `]`; if it cannot match, the
pattern still matches the bare `\begin{env}`. -/
def tryEnvBegin (env disp : List Char) (s : List Char) :
    Option (List Char × List Char) :=
  if begins (beginTok env) s then
    let r := List.drop (beginTok env).length s
    match r with
    | c :: r1 =>
      if c == '[' then
        let run := r1.takeWhile (fun d => !(d == ']'))
        if run.isEmpty then some (labelOpen disp, r)
        else
          match r1.dropWhile (fun d => !(d == ']')) with
          | _ :: r2 => some (titleLabel disp run, r2)
          | [] => some (labelOpen disp, r)
      else some (labelOpen disp, r)
    | [] => some (labelOpen disp, r)
  else none

/-- Single-position matcher for `\\begin\{multicols\}\{[^}]+\}` (removed,
app.py line 103). -/
def tryMultiB (s : List Char) : Option (List Char × List Char) :=
  if begins (str "\\begin\x7bmulticols\x7d\x7b") s then
    let r := List.drop (str "\\begin\x7bmulticols\x7d\x7b").length s
    let run := r.takeWhile (fun c => !(c == rbrace))
    if run.isEmpty then none
    else
      match r.dropWhile (fun c => !(c == rbrace)) with
      | _ :: rest => some ([], rest)
      | [] => none
  else none

/-- One iteration of the per-line loop over `theorem_envs`: substitute the
begin pattern, then the end pattern (app.py lines 105-115). -/
def envRewrite (code : List Char) (p : List Char × List Char) : List Char :=
  replaceAll (endTok p.1) (str "\\end\x7bquote\x7d")
    (runScan (tryEnvBegin p.1 p.2) code)

/-- The whole per-line code rewrite: strip `multicols` markers, then run
every theorem environment's begin/end substitution (app.py lines 103-115). -/
def processTheoremLine (code : List Char) : List Char :=
  theoremEnvs.foldl envRewrite
    (replaceAll (str "\\end\x7bmulticols\x7d") [] (runScan tryMultiB code))

/-- One line of the theorem-environment stage: split off the trailing
comment, rewrite the code part, re-append the comment (app.py
lines 101-116). -/
def processLine (line : List Char) : List Char :=
  processTheoremLine (splitComment line).1 ++ (splitComment line).2

/-- The line-oriented theorem-environment stage (app.py lines 99-117). -/
def theoremStage (content : List Char) : List Char :=
  joinNl ((splitNl content).map processLine)

/-! ### Title block (app.py lines 30-54 and 90-96) -/

/-- Single-position matcher for `opener([^}]*)\}` (`allowEmpty = true`) or
`opener([^}]+)\}` (`allowEmpty = false`), returning the captured group. -/
def tryCap (opener : List Char) (allowEmpty : Bool) (s : List Char) :
    Option (List Char) :=
  if begins opener s then
    let r := List.drop opener.length s
    let run := r.takeWhile (fun c => !(c == rbrace))
    if !allowEmpty && run.isEmpty then none
    else
      match r.dropWhile (fun c => !(c == rbrace)) with
      | _ :: _ => some run
      | [] => none
  else none

/-- `extract_title_info(content)`: first `\title{...}`, `\author{...}`,
`\date{...}` captures, each stripped; `''` when absent. -/
def extractTitleInfo (content : List Char) :
    List Char × List Char × List Char :=
  (stripWs ((findMatch (tryCap (str "\\title\x7b") true) content).getD []),
   stripWs ((findMatch (tryCap (str "\\author\x7b") true) content).getD []),
   stripWs ((findMatch (tryCap (str "\\date\x7b") true) content).getD []))

/-- `build_title_block(title, author, date)` (app.py lines 40-54). -/
def buildTitleBlock (t a d : List Char) : Option (List Char) :=
  if t.isEmpty && a.isEmpty && d.isEmpty then none
  else some (joinNl
    ([str "\\begin\x7bcenter\x7d"]
      ++ (if t.isEmpty then [] else [str "\x7b\\LARGE " ++ t ++ str "\\par\x7d"])
      ++ (if a.isEmpty then []
          else [str "\\vspace\x7b0.5em\x7d", str "\x7b\\large " ++ a ++ str "\\par\x7d"])
      ++ (if d.isEmpty then []
          else [str "\\vspace\x7b0.5em\x7d", str "\x7b\\large " ++ d ++ str "\\par\x7d"])
      ++ [str "\\end\x7bcenter\x7d"]))

/-- The literal token `\maketitle`. -/
def mkTok : List Char := str "\\maketitle"

/-- The literal token `\begin{document}`. -/
def bdocTok : List Char := str "\\begin\x7bdocument\x7d"

/-- Title-block placement (app.py lines 90-96, simple_converter.py
lines 71-77): `content.replace(r'\maketitle', block)` — note: *every*
occurrence — else insert after the first `\begin{document}`, else
prepend. -/
def placeTitle (block : Option (List Char)) (content : List Char) :
    List Char :=
  match block with
  | none => content
  | some blk =>
    if containsSub mkTok content then replaceAll mkTok blk content
    else if containsSub bdocTok content then
      replaceFirst bdocTok (bdocTok ++ '\n' :: blk) content
    else blk ++ '\n' :: content

/-! ### Framebox/parbox flattener (app.py lines 75-80) -/

/-- Single-position matcher for
`\\framebox\{\\parbox\{[^}]*\}\{([\s\S]*?)\}\}`: the width group is the
run to the first `}`, the body is the non-greedy scan to the first `}}`. -/
def tryFbx (s : List Char) : Option (List Char × List Char) :=
  if begins (str "\\framebox\x7b\\parbox\x7b") s then
    let r := List.drop (str "\\framebox\x7b\\parbox\x7b").length s
    match r.dropWhile (fun c => !(c == rbrace)) with
    | _ :: r2 =>
      match r2 with
      | c :: r3 =>
        if c == lbrace then
          match findSub (str "\x7d\x7d") r3 with
          | some j =>
            some (str "\\begin\x7bquote\x7d\n" ++ List.take j r3 ++
                    str "\n\\end\x7bquote\x7d",
                  List.drop (j + 2) r3)
          | none => none
        else none
      | [] => none
    | [] => none
  else none

/-- `convert_framebox_parbox(text)`. -/
def convertFrameboxParbox (s : List Char) : List Char := runScan tryFbx s

/-! ### Label/reference rewriter (app.py lines 119-121,
simple_converter.py lines 100-102) -/

/-- Single-position matcher for `\\label\{([^}]+)\}` → `''`. -/
def tryLabel (s : List Char) : Option (List Char × List Char) :=
  if begins (str "\\label\x7b") s then
    let r := List.drop (str "\\label\x7b").length s
    let run := r.takeWhile (fun c => !(c == rbrace))
    if run.isEmpty then none
    else
      match r.dropWhile (fun c => !(c == rbrace)) with
      | _ :: rest => some ([], rest)
      | [] => none
  else none

/-- Single-position matcher for app.py's
`re.sub(r'\\ref\{([^}]+)\}', r'\\textit{\1}', ...)`: the replacement
template references group 1. -/
def tryRefA (s : List Char) : Option (List Char × List Char) :=
  if begins (str "\\ref\x7b") s then
    let r := List.drop (str "\\ref\x7b").length s
    let run := r.takeWhile (fun c => !(c == rbrace))
    if run.isEmpty then none
    else
      match r.dropWhile (fun c => !(c == rbrace)) with
      | _ :: rest => some (str "\\textit\x7b" ++ run ++ str "\x7d", rest)
      | [] => none
  else none

/-- Single-position matcher for simple_converter.py's
`re.sub(r'\\ref\{([^}]+)\}', r'\\textit{\\1}', ...)`: in the raw string
`r'\\textit{\\1}'` the `\\1` is an escaped backslash followed by the
literal digit `1`, so the replacement is the *literal* text `\textit{\1}`
and the captured name is discarded. -/
def tryRefS (s : List Char) : Option (List Char × List Char) :=
  if begins (str "\\ref\x7b") s then
    let r := List.drop (str "\\ref\x7b").length s
    let run := r.takeWhile (fun c => !(c == rbrace))
    if run.isEmpty then none
    else
      match r.dropWhile (fun c => !(c == rbrace)) with
      | _ :: rest => some (str "\\textit\x7b\\1\x7d", rest)
      | [] => none
  else none

/-- Label removal stage. -/
def labelStage (s : List Char) : List Char := runScan tryLabel s

/-- Reference stage of app.py. -/
def refStageApp (s : List Char) : List Char := runScan tryRefA s

/-- Reference stage of simple_converter.py. -/
def refStageSimple (s : List Char) : List Char := runScan tryRefS s

/-- `preprocess_latex(latex_content)` of app.py: title info is extracted
from the *original* content (line 72), then framebox conversion (line 88),
title placement (lines 90-96), the per-line theorem stage (lines 99-117),
label removal and reference italicising (lines 120-121). -/
def preprocess_latex (content : List Char) : List Char :=
  let t := extractTitleInfo content
  let block := buildTitleBlock t.1 t.2.1 t.2.2
  refStageApp (labelStage (theoremStage (placeTitle block
    (convertFrameboxParbox content))))

/-- `preprocess_latex_simple(content)` of simple_converter.py: framebox
conversion first (line 67), then title extraction from the converted text
(line 69), placement, theorem stage, label removal, and the (buggy)
reference replacement. -/
def preprocess_latex_simple (content : List Char) : List Char :=
  let c1 := convertFrameboxParbox content
  let t := extractTitleInfo c1
  let block := buildTitleBlock t.1 t.2.1 t.2.2
  refStageSimple (labelStage (theoremStage (placeTitle block c1)))

/-! ### Include resolver (`resolve_includes`, app.py lines 254-284)

The file system is embedded as a map from paths to file contents, and the
unbounded recursion of the source is embedded with a fuel parameter:
`none` means the fuel ran out before the recursion bottomed out. -/

/-- A file system: path to file content, `none` when the file is absent
(`os.path.exists` fails). -/
def FS : Type := List Char → Option (List Char)

/-- `os.path.join(base, f)` for a relative `f` (the only shape the source
produces). -/
def pjoin (base f : List Char) : List Char := base ++ '/' :: f

/-- `os.path.dirname(p)`: everything before the last `/` (`''` if none). -/
def dirname (p : List Char) : List Char :=
  (List.drop 1 (p.reverse.dropWhile (fun c => !(c == '/')))).reverse

/-- Append `.tex` when absent (app.py lines 264-265). -/
def withTex (name : List Char) : List Char :=
  if endsWith (str ".tex") name then name else name ++ str ".tex"

/-- Single-position matcher for `\\(?:include|input)\{([^}]+)\}` returning
the captured file name. -/
def tryIncl (s : List Char) : Option (List Char) :=
  let afterOpen : Option (List Char) :=
    if begins (str "\\include\x7b") s then
      some (List.drop (str "\\include\x7b").length s)
    else if begins (str "\\input\x7b") s then
      some (List.drop (str "\\input\x7b").length s)
    else none
  match afterOpen with
  | none => none
  | some r =>
    let run := r.takeWhile (fun c => !(c == rbrace))
    if run.isEmpty then none
    else
      match r.dropWhile (fun c => !(c == rbrace)) with
      | _ :: _ => some run
      | [] => none

/-- `re.search(r'\\(?:include|input)\{([^}]+)\}', line)` — note: the search
runs over the *whole line*, comments included (app.py line 261 does not use
`split_comment`). -/
def lineMatch (line : List Char) : Option (List Char) := findMatch tryIncl line

/-- The per-line loop body of `resolve_includes` over an explicit list of
lines; `recur` resolves an included file's content (with one unit of fuel
consumed).  Mirrors app.py lines 259-283, including the unreachable
second-lookup branch of lines 269-270. -/
def resolveStep (recur : List Char → List Char → Option (List Char))
    (fs : FS) (base : List Char) :
    List (List Char) → Option (List (List Char))
  | [] => some []
  | l :: ls =>
    match lineMatch l with
    | none =>
      match resolveStep recur fs base ls with
      | some rest => some (l :: rest)
      | none => none
    | some name =>
      let fname := withTex name
      let p0 := pjoin base fname
      let p :=
        if (fs p0).isNone && !(endsWith (str ".tex") fname) then
          pjoin base (fname ++ str ".tex")
        else p0
      match fs p with
      | none =>
        match resolveStep recur fs base ls with
        | some rest => some (l :: rest)
        | none => none
      | some inc =>
        match recur (dirname p) inc, resolveStep recur fs base ls with
        | some rinc, some rest => some (rinc :: rest)
        | _, _ => none

/-- `resolve_includes(latex_content, base_dir)` with fuel: each recursion
into an included file consumes one unit.  Returns `none` exactly when the
fuel runs out (the Python original would still be recursing). -/
def resolve_includesF : Nat → FS → List Char → List Char → Option (List Char)
  | 0, _, _, _ => none
  | fuel + 1, fs, base, content =>
    match resolveStep (fun b c => resolve_includesF fuel fs b c) fs base
        (splitNl content) with
    | some ls => some (joinNl ls)
    | none => none

/-- The include-directive targets of a document resolved from `base`
(the paths the resolver will look up). -/
def includeTargets (base content : List Char) : List (List Char) :=
  (splitNl content).filterMap
    (fun l => (lineMatch l).map (fun name => pjoin base (withTex name)))

/-- A one-file self-referencing file system: `base/a.tex` contains
`\input{a}`. -/
def fsSelf : FS := fun p =>
  if p = str "base/a.tex" then some (str "\\input\x7ba\x7d") else none

/-! ### Beamer-frame flattener (`preprocess_beamer_frames`,
app.py lines 211-252 = simple_converter.py lines 190-231) -/

/-- The literal token `\begin{frame}`. -/
def frameTok : List Char := str "\\begin\x7bframe\x7d"

/-- The literal token `\end{frame}`. -/
def endFrameTok : List Char := str "\\end\x7bframe\x7d"

/-- Consume an optional `\[[^\]]*\]` group (zero or more non-`]` then `]`);
when it cannot complete, the option is skipped. -/
def optBracket (r : List Char) : List Char :=
  match r with
  | c :: t =>
    if c == '[' then
      match t.dropWhile (fun d => !(d == ']')) with
      | _ :: u => u
      | [] => r
    else r
  | [] => r

/-- Consume an optional `\{([^}]*)\}` group, returning the capture. -/
def optBraceGroup (r : List Char) : Option (List Char) × List Char :=
  match r with
  | c :: t =>
    if c == lbrace then
      let run := t.takeWhile (fun d => !(d == rbrace))
      match t.dropWhile (fun d => !(d == rbrace)) with
      | _ :: u => (some run, u)
      | [] => (none, r)
    else (none, r)
  | [] => (none, r)

/-- Single-position matcher for
`\\begin\{frame\}(?:\[[^\]]*\])?(?:\{([^}]*)\})?`: the optional inline
title capture and the remainder after the whole match. -/
def frameBMatch (s : List Char) : Option (Option (List Char) × List Char) :=
  if begins frameTok s then
    let r := optBracket (List.drop frameTok.length s)
    some (optBraceGroup r)
  else none

/-- Remove every occurrence of the frame-begin pattern
(`re.sub(..., '', code)`, app.py line 234). -/
def removeFrameBegins (code : List Char) : List Char :=
  runScan (fun s => (frameBMatch s).map (fun x => (([] : List Char), x.2))) code

/-- Single-position matcher for `\\frametitle\{([^}]*)\}`. -/
def ftMatch (s : List Char) : Option (List Char × List Char) :=
  if begins (str "\\frametitle\x7b") s then
    let r := List.drop (str "\\frametitle\x7b").length s
    let run := r.takeWhile (fun c => !(c == rbrace))
    match r.dropWhile (fun c => !(c == rbrace)) with
    | _ :: rest => some (run, rest)
    | [] => none
  else none

/-- Remove every `\frametitle{...}` (app.py line 243). -/
def removeFrametitles (code : List Char) : List Char :=
  runScan (fun s => (ftMatch s).map (fun x => (([] : List Char), x.2))) code

/-- The emitted section heading `\section{t}`. -/
def secLine (t : List Char) : List Char :=
  str "\\section\x7b" ++ t ++ str "\x7d"

/-- Frame-begin handling of one line (app.py lines 226-234): returns the
new `(inside_frame, frame_title_set)` state, the emitted section lines and
the rewritten code. -/
def frameBeginStep (inside tset : Bool) (code : List Char) :
    (Bool × Bool) × List (List Char) × List Char :=
  match findMatch (fun s => (frameBMatch s).map (·.1)) code with
  | some g =>
    let t := stripWs (g.getD [])
    if t.isEmpty then ((true, false), [], removeFrameBegins code)
    else ((true, true), [secLine t], removeFrameBegins code)
  | none => ((inside, tset), [], code)

/-- Frametitle handling of one line (app.py lines 236-243). -/
def frametitleStep (inside tset : Bool) (code : List Char) :
    (Bool × Bool) × List (List Char) × List Char :=
  if inside then
    match findMatch ftMatch code with
    | some m =>
      let t := stripWs m.1
      if !t.isEmpty && !tset then
        ((inside, true), [secLine t], removeFrametitles code)
      else ((inside, tset), [], removeFrametitles code)
    | none => ((inside, tset), [], code)
  else ((inside, tset), [], code)

/-- Frame-end handling of one line (app.py lines 245-248). -/
def endFrameStep (inside tset : Bool) (code : List Char) :
    (Bool × Bool) × List Char :=
  if containsSub endFrameTok code then
    ((false, false), replaceAll endFrameTok [] code)
  else ((inside, tset), code)

/-- One line of the beamer flattener: split off the comment, run the three
steps on the code part, then append the stripped re-joined line
(app.py lines 223-250). -/
def beamerLine (st : Bool × Bool) (line : List Char) :
    (Bool × Bool) × List (List Char) :=
  let sc := splitComment line
  let r1 := frameBeginStep st.1 st.2 sc.1
  let r2 := frametitleStep r1.1.1 r1.1.2 r1.2.2
  let r3 := endFrameStep r2.1.1 r2.1.2 r2.2.2
  (r3.1, r1.2.1 ++ r2.2.1 ++ [stripWs (r3.2 ++ sc.2)])

/-- Fold of `beamerLine` over the document's lines. -/
def beamerFold (st : Bool × Bool) : List (List Char) → List (List Char)
  | [] => []
  | l :: ls =>
    let r := beamerLine st l
    r.2 ++ beamerFold r.1 ls

/-- All collected output lines (before the blank filter). -/
def beamerAll (content : List Char) : List (List Char) :=
  beamerFold (false, false) (splitNl content)

/-- The non-blank output lines
(`[line for line in output_lines if line]`, app.py line 252). -/
def beamerOutLines (content : List Char) : List (List Char) :=
  (beamerAll content).filter (fun l => !l.isEmpty)

/-- `preprocess_beamer_frames(latex_content)`. -/
def preprocess_beamer_frames (content : List Char) : List Char :=
  joinNl (beamerOutLines content)


/-! ### HTML accessibility/theming post-processor
(`enhance_html_accessibility`, app.py lines 527-663, and
`post_process_html`, simple_converter.py lines 292-389).  Only the pure
text transformation is embedded (the functions read and re-write one file;
the text between those two I/O actions is modelled). -/

/-- The body of the injected stylesheet of `enhance_html_accessibility`
(app.py lines 553-647): everything strictly between the `<style>` line and
the `</style>` line, verbatim.  It contains no `<` character, which the
scan lemmas below exploit. -/
def cssMid : List Char :=
    str "/* Accessibility enhancements */\n" ++
    (str "body \x7b font-family: Arial, sans-serif; line-height: 1.6; max-width: 1200px; margin: 0 6vw 0 2vw; padding: 20px; \x7d\n" ++
    (str "h1, h2, h3, h4, h5, h6 \x7b margin-top: 1.5em; margin-bottom: 0.5em; \x7d\n" ++
    (str "p \x7b margin-bottom: 1em; \x7d\n" ++
    (str "img \x7b max-width: 100%; height: auto; \x7d\n" ++
    (str "table \x7b border-collapse: collapse; width: 100%; \x7d\n" ++
    (str "th, td \x7b border: 1px solid #ddd; padding: 8px; text-align: left; \x7d\n" ++
    (str "th \x7b background-color: #f2f2f2; font-weight: bold; \x7d\n" ++
    (str "a \x7b color: #0066cc; text-decoration: underline; \x7d\n" ++
    (str "a:hover, a:focus \x7b background-color: #f0f8ff; \x7d\n" ++
    (str ".math \x7b font-family: \x27Times New Roman\x27, serif; \x7d\n" ++
    (str "@media (prefers-reduced-motion: reduce) \x7b * \x7b animation-duration: 0.01ms !important; \x7d \x7d\n" ++
    (str "\n" ++
    (str "/* Enhanced theorem styling */\n" ++
    (str "body \x7b font-family: \x27Times New Roman\x27, serif; \x7d\n" ++
    (str "\n" ++
    (str "/* Theorem labels - make them bold and colored */\n" ++
    (str ".theorem-label,\n" ++
    (str "strong.theorem-label \x7b\n" ++
    (str "    color: #007acc !important;\n" ++
    (str "    font-size: 1.1em !important;\n" ++
    (str "    font-weight: bold !important;\n" ++
    (str "\x7d\n" ++
    (str "\n" ++
    (str "/* Style paragraphs with theorem data attributes */\n" ++
    (str "p[data-theorem] \x7b\n" ++
    (str "    margin: 1.5em 0;\n" ++
    (str "    padding: 1em;\n" ++
    (str "    border-left: 4px solid #007acc;\n" ++
    (str "    background-color: #f8f9fa;\n" ++
    (str "    border-radius: 4px;\n" ++
    (str "\x7d\n" ++
    (str "\n" ++
    (str "/* Theorem blockquotes */\n" ++
    (str ".theorem-block \x7b\n" ++
    (str "    margin: 1.5em 0;\n" ++
    (str "    padding: 1em;\n" ++
    (str "    border-left: 4px solid #007acc;\n" ++
    (str "    background-color: #f8f9fa;\n" ++
    (str "    border-radius: 4px;\n" ++
    (str "\x7d\n" ++
    (str "\n" ++
    (str ".theorem-block > p:first-child \x7b\n" ++
    (str "    margin-top: 0;\n" ++
    (str "\x7d\n" ++
    (str "\n" ++
    (str ".theorem-block > p:last-child \x7b\n" ++
    (str "    margin-bottom: 0;\n" ++
    (str "\x7d\n" ++
    (str "\n" ++
    (str "/* Framebox-like quotes */\n" ++
    (str "blockquote:not(.theorem-block) \x7b\n" ++
    (str "    margin: 1.2em 0;\n" ++
    (str "    padding: 1em;\n" ++
    (str "    border: 1px solid #ddd;\n" ++
    (str "    background-color: #f8f9fa;\n" ++
    (str "    border-radius: 4px;\n" ++
    (str "\x7d\n" ++
    (str "\n" ++
    (str "/* Specific styling based on content */\n" ++
    (str "p[data-theorem=\"definition\"],\n" ++
    (str ".theorem-block[data-theorem=\"definition\"] \x7b\n" ++
    (str "    border-left-color: #dc3545;\n" ++
    (str "    background-color: #fff8f8;\n" ++
    (str "\x7d\n" ++
    (str "\n" ++
    (str "p[data-theorem=\"theorem\"],\n" ++
    (str "p[data-theorem=\"lemma\"],\n" ++
    (str "p[data-theorem=\"corollary\"],\n" ++
    (str "p[data-theorem=\"proposition\"],\n" ++
    (str ".theorem-block[data-theorem=\"theorem\"],\n" ++
    (str ".theorem-block[data-theorem=\"lemma\"],\n" ++
    (str ".theorem-block[data-theorem=\"corollary\"],\n" ++
    (str ".theorem-block[data-theorem=\"proposition\"] \x7b\n" ++
    (str "    border-left-color: #28a745;\n" ++
    (str "    background-color: #f8fff8;\n" ++
    (str "\x7d\n" ++
    (str "\n" ++
    (str "p[data-theorem=\"example\"],\n" ++
    (str "p[data-theorem=\"exercise\"],\n" ++
    (str ".theorem-block[data-theorem=\"example\"],\n" ++
    (str ".theorem-block[data-theorem=\"exercise\"] \x7b\n" ++
    (str "    border-left-color: #ffc107;\n" ++
    (str "    background-color: #fffdf0;\n" ++
    (str "\x7d\n" ++
    (str "\n" ++
    (str "p[data-theorem=\"proof\"],\n" ++
    (str ".theorem-block[data-theorem=\"proof\"] \x7b\n" ++
    (str "    border-left-color: #6c757d;\n" ++
    (str "    background-color: #f1f3f4;\n" ++
    (str "\x7d\n"))))))))))))))))))))))))))))))))))))))))))))))))))))))))))))))))))))))))))))))))))))))))))

/-- The leading newline of the triple-quoted stylesheet string. -/
def cssNl : List Char := str "\n"

/-- The `<style>` opening line of the stylesheet. -/
def cssOpen : List Char := str "<style>\n"

/-- The `</style>` closing line of the stylesheet. -/
def cssClose : List Char := str "</style>\n"

/-- The injected stylesheet of `enhance_html_accessibility`
(app.py lines 553-647), verbatim. -/
def accessibility_css : List Char := cssNl ++ (cssOpen ++ (cssMid ++ cssClose))

/-- The injected stylesheet of `post_process_html` (simple_converter.py lines 299-369), verbatim. -/
def custom_css : List Char :=
    str "\n" ++
    str "<style>\n" ++
    str "/* Enhanced theorem styling */\n" ++
    str "body \x7b \n" ++
    str "    font-family: \x27Times New Roman\x27, serif; \n" ++
    str "    line-height: 1.6; \n" ++
    str "    max-width: 1200px; \n" ++
    str "    margin: 0 6vw 0 2vw; \n" ++
    str "    padding: 20px; \n" ++
    str "\x7d\n" ++
    str "\n" ++
    str "/* Theorem-like environments */\n" ++
    str ".theorem-block \x7b\n" ++
    str "    margin: 1.5em 0;\n" ++
    str "    padding: 1em;\n" ++
    str "    border-left: 4px solid #007acc;\n" ++
    str "    background-color: #f8f9fa;\n" ++
    str "    border-radius: 4px;\n" ++
    str "\x7d\n" ++
    str "\n" ++
    str ".theorem-block > p:first-child \x7b\n" ++
    str "    margin-top: 0;\n" ++
    str "\x7d\n" ++
    str "\n" ++
    str ".theorem-block > p:last-child \x7b\n" ++
    str "    margin-bottom: 0;\n" ++
    str "\x7d\n" ++
    str "\n" ++
    str "/* Framebox-like quotes */\n" ++
    str "blockquote:not(.theorem-block) \x7b\n" ++
    str "    margin: 1.2em 0;\n" ++
    str "    padding: 1em;\n" ++
    str "    border: 1px solid #ddd;\n" ++
    str "    background-color: #f8f9fa;\n" ++
    str "    border-radius: 4px;\n" ++
    str "\x7d\n" ++
    str "\n" ++
    str "/* Specific colors for different types */\n" ++
    str ".theorem-block[data-theorem=\"definition\"] \x7b\n" ++
    str "    border-left-color: #dc3545;\n" ++
    str "    background-color: #fff8f8;\n" ++
    str "\x7d\n" ++
    str "\n" ++
    str ".theorem-block[data-theorem=\"theorem\"],\n" ++
    str ".theorem-block[data-theorem=\"lemma\"],\n" ++
    str ".theorem-block[data-theorem=\"corollary\"],\n" ++
    str ".theorem-block[data-theorem=\"proposition\"] \x7b\n" ++
    str "    border-left-color: #28a745;\n" ++
    str "    background-color: #f8fff8;\n" ++
    str "\x7d\n" ++
    str "\n" ++
    str ".theorem-block[data-theorem=\"example\"],\n" ++
    str ".theorem-block[data-theorem=\"exercise\"] \x7b\n" ++
    str "    border-left-color: #ffc107;\n" ++
    str "    background-color: #fffdf0;\n" ++
    str "\x7d\n" ++
    str "\n" ++
    str ".theorem-block[data-theorem=\"proof\"] \x7b\n" ++
    str "    border-left-color: #6c757d;\n" ++
    str "    background-color: #f1f3f4;\n" ++
    str "\x7d\n" ++
    str "\n" ++
    str "/* Math styling */\n" ++
    str ".math \x7b font-family: \x27Times New Roman\x27, serif; \x7d\n" ++
    str "\n" ++
    str "/* Accessibility */\n" ++
    str "@media (prefers-reduced-motion: reduce) \x7b \n" ++
    str "    * \x7b animation-duration: 0.01ms !important; \x7d \n" ++
    str "\x7d\n" ++
    str "</style>\n" ++
    str ""

/-- The keyword table of the post-processors: bold label text paired with
the derived `env_name = keyword.lower().replace(':', '')`. -/
def kwPairs : List (List Char × List Char) :=
  [(str "Definition:", str "definition"),
   (str "Theorem:", str "theorem"),
   (str "Lemma:", str "lemma"),
   (str "Corollary:", str "corollary"),
   (str "Proposition:", str "proposition"),
   (str "Remark:", str "remark"),
   (str "Example:", str "example"),
   (str "Exercise:", str "exercise"),
   (str "Proof:", str "proof")]

/-- Single-position matcher for
`<blockquote>(\s*<p>\s*<strong>kw</strong>)` with its replacement
`<blockquote class="theorem-block" data-theorem="env">\1`
(app.py lines 546-550, simple_converter.py lines 375-379). -/
def tryBq (kw env : List Char) (s : List Char) :
    Option (List Char × List Char) :=
  if begins (str "<blockquote>") s then
    let r0 := List.drop (str "<blockquote>").length s
    let ws1 := r0.takeWhile isSpaceC
    let r1 := r0.dropWhile isSpaceC
    if begins (str "<p>") r1 then
      let r2 := List.drop (str "<p>").length r1
      let ws2 := r2.takeWhile isSpaceC
      let r3 := r2.dropWhile isSpaceC
      let pat := str "<strong>" ++ kw ++ str "</strong>"
      if begins pat r3 then
        some (str "<blockquote class=\"theorem-block\" data-theorem=\"" ++
                env ++ str "\">" ++ ws1 ++ str "<p>" ++ ws2 ++ pat,
              List.drop pat.length r3)
      else none
    else none
  else none

/-- One pass of the keyword loop of `enhance_html_accessibility`
(app.py lines 535-550): tag `<p><strong>kw</strong>` paragraphs, add the
label class to every `<strong>kw</strong>`, then the blockquote rewrite. -/
def enhanceKw (content : List Char) (p : List Char × List Char) : List Char :=
  let kw := p.1
  let env := p.2
  let c1 := replaceAll (str "<p><strong>" ++ kw ++ str "</strong>")
    (str "<p data-theorem=\"" ++ env ++ str "\"><strong>" ++ kw ++
      str "</strong>") content
  let c2 := replaceAll (str "<strong>" ++ kw ++ str "</strong>")
    (str "<strong class=\"theorem-label\">" ++ kw ++ str "</strong>") c1
  runScan (tryBq kw env) c2

/-- Word character for the `\b` boundary in the lang-attribute regex. -/
def isWordC (c : Char) : Bool :=
  ('a' ≤ c && c ≤ 'z') || ('A' ≤ c && c ≤ 'Z') ||
  ('0' ≤ c && c ≤ '9') || c == '_'

/-- The lookahead `[^>]*\blang=` applied to the run of non-`>` characters
following `<html`: true when `lang=` occurs at some position of `run`
whose preceding character is not a word character (the character before
position 0 is the final `l` of `<html`, a word character, so position 0
never matches). -/
def hasLangWB : Char → List Char → Bool
  | _, [] => false
  | prev, c :: cs =>
    (!isWordC prev && begins (str "lang=") (c :: cs)) || hasLangWB c cs

/-- Single-position matcher for
`<html(?![^>]*\blang=)([^>]*)>`: returns the captured attribute run and
the remainder after `>`. -/
def langTry (s : List Char) : Option (List Char × List Char) :=
  if begins (str "<html") s then
    let r := List.drop (str "<html").length s
    let run := r.takeWhile (fun c => !(c == '>'))
    match r.dropWhile (fun c => !(c == '>')) with
    | _ :: after => if hasLangWB 'l' run then none else some (run, after)
    | [] => none
  else none

/-- `re.sub(r'<html(?![^>]*\blang=)([^>]*)>', r'<html\1 lang="en">',
content, count=1)` (app.py line 657, simple_converter.py line 386). -/
def addLang : List Char → List Char
  | [] => []
  | c :: cs =>
    match langTry (c :: cs) with
    | some (run, after) =>
      str "<html" ++ run ++ str " lang=\"en\">" ++ after
    | none => c :: addLang cs

/-- The text transformation of `enhance_html_accessibility` (app.py
lines 533-657): keyword passes, stylesheet injection before every
`</head>` (or a synthesised head when none exists), then the lang
attribute. -/
def enhance_html_accessibility (content : List Char) : List Char :=
  let c1 := kwPairs.foldl enhanceKw content
  let c2 :=
    if containsSub (str "</head>") c1 then
      replaceAll (str "</head>") (accessibility_css ++ str "</head>") c1
    else str "<head>" ++ accessibility_css ++ str "</head>" ++ c1
  addLang c2

/-- The text transformation of `post_process_html` (simple_converter.py
lines 295-389): blockquote keyword passes, stylesheet injection before
every `</head>` (no head is synthesised here), then the lang attribute. -/
def post_process_html (content : List Char) : List Char :=
  let c1 := kwPairs.foldl
    (fun c p => runScan (tryBq p.1 p.2) c) content
  let c2 :=
    if containsSub (str "</head>") c1 then
      replaceAll (str "</head>") (custom_css ++ str "</head>") c1
    else c1
  addLang c2

/-! ### TikZ step and `convert_latex_simple`
(simple_converter.py lines 106-290).  The external tools are embedded as
oracles: `render i` tells whether block `i` compiles and rasterises
successfully, and `pandoc` is the external converter. -/

/-- The error message raised by `preprocess_tikz` of simple_converter.py
when a tool is missing (line 109). -/
def tikzErrMsg : List Char :=
  str ("TikZ detected but pdflatex or pdftoppm is not installed. " ++
    "Install TeX Live and Poppler (pdftoppm).")

/-- Insertion of `\usepackage{graphicx}` after the first
`\documentclass...\n` line (`re.sub(..., count=1)`,
simple_converter.py lines 113-118). -/
def docclassInsert : List Char → List Char
  | [] => []
  | c :: cs =>
    if begins (str "\\documentclass") (c :: cs) then
      let line := (c :: cs).takeWhile (fun d => !(d == '\n'))
      match (c :: cs).dropWhile (fun d => !(d == '\n')) with
      | _ :: rest =>
        line ++ '\n' :: str "\\usepackage\x7bgraphicx\x7d\n" ++ rest
      | [] => c :: docclassInsert cs
    else c :: docclassInsert cs

/-- Ensure `graphicx` is loaded (simple_converter.py lines 111-120). -/
def ensureGraphicx (c : List Char) : List Char :=
  if containsSub (str "\\usepackage\x7bgraphicx\x7d") c then c
  else if containsSub (str "\\documentclass") c then docclassInsert c
  else str "\\usepackage\x7bgraphicx\x7d\n" ++ c

/-- Single-position matcher for the non-greedy block pattern
`\begin\{tikzpicture\}[\s\S]*?\end\{tikzpicture\}`. -/
def tryTikz (s : List Char) : Option (List Char × List Char) :=
  if begins (str "\\begin\x7btikzpicture\x7d") s then
    match findSub (str "\\end\x7btikzpicture\x7d")
        (List.drop (str "\\begin\x7btikzpicture\x7d").length s) with
    | some j =>
      let blockLen := (str "\\begin\x7btikzpicture\x7d").length + j +
        (str "\\end\x7btikzpicture\x7d").length
      some (List.take blockLen s, List.drop blockLen s)
    | none => none
  else none

/-- `tikz_{idx}.png`. -/
def pngName (idx : Nat) : List Char :=
  str "tikz_" ++ (Nat.repr idx).data ++ str ".png"

/-- The centered image reference spliced for a rendered block. -/
def imgRef (idx : Nat) : List Char :=
  str "\\begin\x7bcenter\x7d\\includegraphics\x7b" ++ pngName idx ++
    str "\x7d\\end\x7bcenter\x7d"

/-- Fueled splice loop over the tikz blocks, 1-based index; blocks whose
render fails are left in place (the two subprocess failures of
simple_converter.py lines 159-175 are merged into the oracle). -/
def tikzGo (render : Nat → Bool) :
    Nat → Nat → List Char → List Char × List (List Char)
  | 0, _, s => (s, [])
  | _ + 1, _, [] => ([], [])
  | fuel + 1, idx, c :: cs =>
    match tryTikz (c :: cs) with
    | some (block, rest) =>
      let pr := tikzGo render fuel (idx + 1) rest
      if render idx then (imgRef idx ++ pr.1, pngName idx :: pr.2)
      else (block ++ pr.1, pr.2)
    | none =>
      let pr := tikzGo render fuel idx cs
      (c :: pr.1, pr.2)

/-- `preprocess_tikz(content, work_dir)` of simple_converter.py: the
tool-availability check is the *first* statement (line 108) and raises
unconditionally when a tool is missing, before any tikz search. -/
def preprocess_tikz_simple (pdflatexOk pdftoppmOk : Bool)
    (render : Nat → Bool) (content : List Char) :
    Except (List Char) (List Char × List (List Char)) :=
  if !pdflatexOk || !pdftoppmOk then Except.error tikzErrMsg
  else
    let c := ensureGraphicx content
    Except.ok (tikzGo render c.length 1 c)

/-- Single-position matcher for
`\documentclass(?:\[[^\]]*\])?\{beamer\}`. -/
def tryBeamerClass (s : List Char) : Option Unit :=
  if begins (str "\\documentclass") s then
    let r := optBracket (List.drop (str "\\documentclass").length s)
    if begins (str "\x7bbeamer\x7d") r then some () else none
  else none

/-- `convert_latex_simple(input_file, output_file)` of simple_converter.py
(lines 233-290), with the file contents passed directly and the external
tools as oracles.  Any exception is re-raised as
`Exception(f"Conversion failed: {e}")`; the HTML post-processing and image
copying act on files and do not change the returned value. -/
def convert_latex_simple (pdflatexOk pdftoppmOk : Bool)
    (render : Nat → Bool) (pandoc : List Char → Except (List Char) Unit)
    (content : List Char) : Except (List Char) Bool :=
  let isBeamer := (findMatch tryBeamerClass content).isSome
  let pc := if isBeamer then preprocess_beamer_frames content else content
  match preprocess_tikz_simple pdflatexOk pdftoppmOk render pc with
  | Except.error e => Except.error (str "Conversion failed: " ++ e)
  | Except.ok pr =>
    let processed := preprocess_latex_simple pr.1
    match pandoc processed with
    | Except.error e =>
      Except.error (str "Conversion failed: Pandoc failed: " ++ e)
    | Except.ok _ => Except.ok true

/-! ### Concrete inputs used by the claim theorems -/

/-- A document carrying one theorem-like environment with a bracketed
title. -/
def c1docT (env : List Char) : List Char :=
  beginTok env ++ str "[Side note]Body." ++ endTok env

/-- Expected rewrite of `c1docT`: a quote block whose bold label is
`Disp (Side note):` followed by one space and the body. -/
def c1expT (disp : List Char) : List Char :=
  str "\\begin\x7bquote\x7d\n\\textbf\x7b" ++ disp ++
    str " (Side note):\x7d Body.\\end\x7bquote\x7d"

/-- A document carrying one theorem-like environment without a title. -/
def c1docN (env : List Char) : List Char :=
  beginTok env ++ str "Body." ++ endTok env

/-- Expected rewrite of `c1docN`: label `Disp:` followed by one space. -/
def c1expN (disp : List Char) : List Char :=
  str "\\begin\x7bquote\x7d\n\\textbf\x7b" ++ disp ++
    str ":\x7d Body.\\end\x7bquote\x7d"

/-- A document with a title and two `\maketitle` occurrences. -/
def c2doc : List Char :=
  str "\\title\x7bT\x7d\n\\begin\x7bdocument\x7d\nA\n\\maketitle\nB\n\\maketitle\nC\n\\end\x7bdocument\x7d"

/-- A marker line occurring exactly once in each inserted title block. -/
def c2blockMark : List Char := str "\x7b\\LARGE T\\par\x7d"

/-- A converter-output HTML document with a head and one theorem
paragraph. -/
def c3html : List Char :=
  str "<html><head></head><body><p><strong>Theorem:</strong> x.</p></body></html>"

/-- File system for the C5 amended theorem: `base/bar.tex` exists. -/
def fsBar : FS := fun p =>
  if p = str "base/bar.tex" then some (str "BAR CONTENT") else none

/-- File system for the C5 counterexample: `base/foo.tex` exists. -/
def fsFoo : FS := fun p =>
  if p = str "base/foo.tex" then some (str "FOO") else none

/-- File system for the C6 witness: `base/sub.tex` exists. -/
def fsW : FS := fun p =>
  if p = str "base/sub.tex" then some (str "HELLO") else none

/-- File system for the C7 witness: one leaf file without includes. -/
def fsLeaf : FS := fun p =>
  if p = str "base/x.tex" then some (str "LEAF") else none

/-- The include-directive targets of an explicit list of lines. -/
def linesTargets (base : List Char) (lines : List (List Char)) :
    List (List Char) :=
  lines.filterMap
    (fun l => (lineMatch l).map (fun name => pjoin base (withTex name)))

/-- Tail-recursive character search (used so that large concrete scans
evaluate iteratively in the kernel). -/
def hasChar (a : Char) : List Char → Bool
  | [] => false
  | c :: cs => if a == c then true else hasChar a cs

/-- The literal token `</head>`. -/
def hdTok : List Char := str "</head>"

/-- `c3html` after the keyword passes of the post-processor. -/
def c3mid : List Char :=
  str "<html><head></head><body><p data-theorem=\"theorem\"><strong class=\"theorem-label\">Theorem:</strong> x.</p></body></html>"

/-- The text of `c3mid` after `</head>` (also the suffix of the enhanced
output after the injected stylesheet). -/
def c3post : List Char :=
  str "</head><body><p data-theorem=\"theorem\"><strong class=\"theorem-label\">Theorem:</strong> x.</p></body></html>"

/-- The prefix of the enhanced output before the injected stylesheet. -/
def c3pre : List Char := str "<html lang=\"en\"><head>"

/-- Everything of `c3post` after the `</head>` token. -/
def c3mB : List Char :=
  str "<body><p data-theorem=\"theorem\"><strong class=\"theorem-label\">Theorem:</strong> x.</p></body></html>"

/-- `NoHit step pre post` states that the scanner `step` matches nowhere
on `pre ++ (accessibility_css ++ post)` when the scan is decomposed along
the stylesheet structure: nowhere inside `pre`, nowhere at the `<style>`
line, nowhere at the `</style>` line, and nowhere inside `post` (the
anchored body `cssMid` is covered separately since it has no `<`). -/
@[reducible] def NoHit (step : List Char → Option (List Char × List Char))
    (pre post : List Char) : Prop :=
  (∀ i, i < pre.length →
    step (List.drop i pre ++ (accessibility_css ++ post)) = none) ∧
  (∀ i, i < cssOpen.length →
    step (List.drop i cssOpen ++ (cssMid ++ (cssClose ++ post))) = none) ∧
  (∀ i, i < cssClose.length →
    step (List.drop i cssClose ++ post) = none) ∧
  (∀ i, i < post.length → step (List.drop i post) = none)

/-! ## Lemmas -/

/-! ### `begins` and `containsSub` -/

theorem begins_append_self (p r : List Char) : begins p (p ++ r) = true := by
  induction p with
  | nil => rfl
  | cons c cs ih =>
    show (c == c && begins cs (cs ++ r)) = true
    simp [ih]

theorem begins_length_le {p s : List Char} (h : begins p s = true) :
    p.length ≤ s.length := by
  induction p generalizing s with
  | nil => simp
  | cons c cs ih =>
    cases s with
    | nil => simp [begins] at h
    | cons d ds =>
      simp only [begins, Bool.and_eq_true] at h
      simpa using Nat.succ_le_succ (ih h.2)

theorem begins_append_of_le {p x : List Char} (y : List Char)
    (h : p.length ≤ x.length) : begins p (x ++ y) = begins p x := by
  induction p generalizing x with
  | nil => rfl
  | cons c cs ih =>
    cases x with
    | nil => simp at h
    | cons d ds =>
      show (c == d && begins cs (ds ++ y)) = (c == d && begins cs ds)
      simp only [List.length_cons, Nat.succ_le_succ_iff] at h
      rw [ih h]

theorem begins_cons_false {a0 : Char} {pt : List Char} {c : Char}
    (x : List Char) (hc : c ≠ a0) : begins (a0 :: pt) (c :: x) = false := by
  show (a0 == c && begins pt x) = false
  rw [beq_eq_false_iff_ne.mpr (Ne.symm hc)]
  rfl

theorem containsSub_append_skip (a0 : Char) (pt a r : List Char)
    (ha : a0 ∉ a) :
    containsSub (a0 :: pt) (a ++ r) = containsSub (a0 :: pt) r := by
  induction a with
  | nil => rfl
  | cons c cs ih =>
    have hc : c ≠ a0 := fun h => ha (h ▸ List.mem_cons_self c cs)
    have hb := @begins_cons_false a0 pt _ (cs ++ r) hc
    show (begins (a0 :: pt) (c :: (cs ++ r)) ||
      containsSub (a0 :: pt) (cs ++ r)) = containsSub (a0 :: pt) r
    rw [hb, Bool.false_or, ih (fun h => ha (List.mem_cons_of_mem c h))]

theorem containsSub_none (a0 : Char) (pt r : List Char) (hr : a0 ∉ r) :
    containsSub (a0 :: pt) r = false := by
  have h := containsSub_append_skip a0 pt r [] hr
  rw [List.append_nil] at h
  rw [h]
  rfl

theorem containsSub_tail (p : List Char) :
    ∀ (a rest : List Char), containsSub p rest = true →
      containsSub p (a ++ rest) = true := by
  intro a rest h
  induction a with
  | nil => exact h
  | cons c cs ih =>
    show (begins p (c :: (cs ++ rest)) || containsSub p (cs ++ rest)) = true
    rw [ih]
    simp

theorem containsSub_here (p r : List Char) (hp : p ≠ []) :
    containsSub p (p ++ r) = true := by
  cases p with
  | nil => exact absurd rfl hp
  | cons c cs =>
    have h := begins_append_self (c :: cs) r
    show (begins (c :: cs) ((c :: cs) ++ r) ||
      containsSub (c :: cs) (cs ++ r)) = true
    rw [h]
    rfl

/-! ### Generic facts about the rewrite scanner -/

theorem scanF_congr (step : List Char → Option (List Char × List Char))
    (hstep : ∀ s o r, step s = some (o, r) → r.length < s.length) :
    ∀ fuel fuel' s, s.length ≤ fuel → s.length ≤ fuel' →
      scanF step fuel s = scanF step fuel' s := by
  intro fuel
  induction fuel with
  | zero =>
    intro fuel' s hs _
    have : s = [] := List.length_eq_zero.mp (Nat.le_zero.mp hs)
    subst this
    cases fuel' <;> rfl
  | succ f ih =>
    intro fuel' s hs hs'
    cases s with
    | nil => cases fuel' <;> rfl
    | cons c cs =>
      cases fuel' with
      | zero => simp at hs'
      | succ f' =>
        show (match step (c :: cs) with
          | some (out, rest) => out ++ scanF step f rest
          | none => c :: scanF step f cs) =
          (match step (c :: cs) with
          | some (out, rest) => out ++ scanF step f' rest
          | none => c :: scanF step f' cs)
        cases hm : step (c :: cs) with
        | none =>
          have h1 : cs.length ≤ f := by simpa using hs
          have h2 : cs.length ≤ f' := by simpa using hs'
          rw [ih f' cs h1 h2]
        | some pr =>
          obtain ⟨o, r⟩ := pr
          have hlt := hstep _ _ _ hm
          simp only [List.length_cons] at hs hs'
          have h1 : r.length ≤ f := by simp at hlt; omega
          have h2 : r.length ≤ f' := by simp at hlt; omega
          simp only
          rw [ih f' r h1 h2]

theorem runScan_nil (step : List Char → Option (List Char × List Char)) :
    runScan step [] = [] := rfl

theorem runScan_cons_none (step : List Char → Option (List Char × List Char))
    (c : Char) (cs : List Char) (h : step (c :: cs) = none) :
    runScan step (c :: cs) = c :: runScan step cs := by
  show (match step (c :: cs) with
    | some (out, rest) => out ++ scanF step cs.length rest
    | none => c :: scanF step cs.length cs) = c :: runScan step cs
  rw [h]
  rfl

theorem runScan_cons_some (step : List Char → Option (List Char × List Char))
    (hcons : ∀ s o r, step s = some (o, r) → r.length < s.length)
    (c : Char) (cs o r : List Char) (h : step (c :: cs) = some (o, r)) :
    runScan step (c :: cs) = o ++ runScan step r := by
  show (match step (c :: cs) with
    | some (out, rest) => out ++ scanF step cs.length rest
    | none => c :: scanF step cs.length cs) = o ++ runScan step r
  rw [h]
  show o ++ scanF step cs.length r = o ++ runScan step r
  have hr : r.length ≤ cs.length := by
    have := hcons _ _ _ h
    simp only [List.length_cons] at this
    omega
  rw [scanF_congr step hcons cs.length r.length r hr (Nat.le_refl _)]
  rfl

theorem runScan_pre (step : List Char → Option (List Char × List Char))
    (a rest : List Char)
    (h : ∀ i, i < a.length → step (List.drop i a ++ rest) = none) :
    runScan step (a ++ rest) = a ++ runScan step rest := by
  induction a with
  | nil => simp
  | cons c cs ih =>
    have h0 : step (c :: (cs ++ rest)) = none := by
      have h0' := h 0 (by simp)
      rw [List.drop_zero] at h0'
      exact h0'
    rw [List.cons_append, runScan_cons_none step c (cs ++ rest) h0,
      ih (fun i hi => by
        have := h (i + 1) (by simpa using Nat.succ_lt_succ hi)
        rwa [List.drop_succ_cons] at this)]
    exact (List.cons_append c cs _).symm

theorem runScan_seg (step : List Char → Option (List Char × List Char))
    (a0 : Char) (hanch : ∀ c cs, c ≠ a0 → step (c :: cs) = none)
    (seg rest : List Char) (hseg : a0 ∉ seg) :
    runScan step (seg ++ rest) = seg ++ runScan step rest := by
  induction seg with
  | nil => simp
  | cons c cs ih =>
    have hc : c ≠ a0 := fun h => hseg (h ▸ List.mem_cons_self c cs)
    rw [List.cons_append, runScan_cons_none step c (cs ++ rest)
      (hanch c (cs ++ rest) hc),
      ih (fun h => hseg (List.mem_cons_of_mem c h))]
    exact (List.cons_append c cs _).symm

theorem runScan_end (step : List Char → Option (List Char × List Char))
    (s : List Char) (h : ∀ i, i < s.length → step (List.drop i s) = none) :
    runScan step s = s := by
  have h2 := runScan_pre step s []
    (fun i hi => by rw [List.append_nil]; exact h i hi)
  rw [List.append_nil, runScan_nil, List.append_nil] at h2
  exact h2

/-! ### `replaceAll` and `replaceFirst` boundary behaviour -/

theorem tryLit_consumes (pat rep : List Char) :
    ∀ s o r, tryLit pat rep s = some (o, r) → r.length < s.length := by
  intro s o r h
  unfold tryLit at h
  split at h
  · rename_i hc
    obtain ⟨hne, hb⟩ := hc
    have hp : 0 < pat.length := List.length_pos.mpr hne
    have hle : pat.length ≤ s.length := begins_length_le hb
    simp only [Option.some.injEq, Prod.mk.injEq] at h
    obtain ⟨-, hr⟩ := h
    subst hr
    simp only [List.length_drop]
    omega
  · exact absurd h (by simp)

theorem tryLit_self (pat rep rest : List Char) (h : pat ≠ []) :
    tryLit pat rep (pat ++ rest) = some (rep, rest) := by
  unfold tryLit
  rw [if_pos ⟨h, begins_append_self pat rest⟩, List.drop_left pat rest]

theorem tryLit_anchor (a0 : Char) (pt rep : List Char) (c : Char)
    (cs : List Char) (hc : c ≠ a0) :
    tryLit (a0 :: pt) rep (c :: cs) = none := by
  unfold tryLit
  rw [@begins_cons_false a0 pt _ cs hc]
  simp

theorem replaceAll_pass (a0 : Char) (pt rep a rest : List Char)
    (ha : a0 ∉ a) :
    replaceAll (a0 :: pt) rep (a ++ rest) =
      a ++ replaceAll (a0 :: pt) rep rest :=
  runScan_seg (tryLit (a0 :: pt) rep) a0
    (fun c cs hc => tryLit_anchor a0 pt rep c cs hc) a rest ha

theorem replaceAll_hit (pat rep rest : List Char) (h : pat ≠ []) :
    replaceAll pat rep (pat ++ rest) = rep ++ replaceAll pat rep rest := by
  cases pat with
  | nil => exact absurd rfl h
  | cons c cs =>
    rw [List.cons_append]
    exact runScan_cons_some (tryLit (c :: cs) rep)
      (tryLit_consumes (c :: cs) rep) c (cs ++ rest) rep rest
      (by rw [← List.cons_append]; exact tryLit_self (c :: cs) rep rest h)

theorem replaceAll_nil (pat rep : List Char) : replaceAll pat rep [] = [] :=
  rfl

theorem replaceAll_skip (a0 : Char) (pt rep s : List Char) (hs : a0 ∉ s) :
    replaceAll (a0 :: pt) rep s = s := by
  have h := replaceAll_pass a0 pt rep s [] hs
  rw [List.append_nil, replaceAll_nil, List.append_nil] at h
  exact h

theorem replaceFirst_pass (a0 : Char) (pt rep a rest : List Char)
    (ha : a0 ∉ a) :
    replaceFirst (a0 :: pt) rep (a ++ rest) =
      a ++ replaceFirst (a0 :: pt) rep rest := by
  induction a with
  | nil => simp
  | cons c cs ih =>
    have hc : c ≠ a0 := fun h => ha (h ▸ List.mem_cons_self c cs)
    show (if (a0 :: pt) ≠ [] ∧ begins (a0 :: pt) (c :: (cs ++ rest))
        then rep ++ List.drop ((a0 :: pt).length - 1) (cs ++ rest)
        else c :: replaceFirst (a0 :: pt) rep (cs ++ rest)) =
      c :: (cs ++ replaceFirst (a0 :: pt) rep rest)
    rw [@begins_cons_false a0 pt _ (cs ++ rest) hc]
    simp only [Bool.false_eq_true, and_false, if_false]
    rw [ih (fun h => ha (List.mem_cons_of_mem c h))]

theorem replaceFirst_hit (a0 : Char) (pt rep rest : List Char) :
    replaceFirst (a0 :: pt) rep ((a0 :: pt) ++ rest) = rep ++ rest := by
  have hb : begins (a0 :: pt) (a0 :: (pt ++ rest)) = true :=
    begins_append_self (a0 :: pt) rest
  show (if (a0 :: pt) ≠ [] ∧ begins (a0 :: pt) (a0 :: (pt ++ rest))
      then rep ++ List.drop ((a0 :: pt).length - 1) (pt ++ rest)
      else a0 :: replaceFirst (a0 :: pt) rep (pt ++ rest)) =
    rep ++ rest
  rw [hb]
  simp only [ne_eq, reduceCtorEq, not_false_eq_true, true_and, if_pos,
    List.length_cons, Nat.succ_sub_one]
  rw [List.drop_left pt rest]

/-! ### `splitNl` / `joinNl` -/

theorem splitNl_ne_nil (s : List Char) : splitNl s ≠ [] := by
  cases s with
  | nil => simp [splitNl]
  | cons c cs =>
    show (if c == '\n' then [] :: splitNl cs
      else match splitNl cs with
        | l :: ls => (c :: l) :: ls
        | [] => [[c]]) ≠ []
    split
    · simp
    · split <;> simp

theorem splitNl_nonl (l : List Char) (h : '\n' ∉ l) : splitNl l = [l] := by
  induction l with
  | nil => rfl
  | cons c cs ih =>
    have hc : ¬(c == '\n') = true := by
      simp [beq_iff_eq]
      exact fun hcc => h (hcc ▸ List.mem_cons_self c cs)
    show (if c == '\n' then [] :: splitNl cs
      else match splitNl cs with
        | l :: ls => (c :: l) :: ls
        | [] => [[c]]) = [c :: cs]
    rw [if_neg hc, ih (fun hm => h (List.mem_cons_of_mem c hm))]

theorem splitNl_append_nl (l r : List Char) (h : '\n' ∉ l) :
    splitNl (l ++ '\n' :: r) = l :: splitNl r := by
  induction l with
  | nil =>
    show (if '\n' == '\n' then [] :: splitNl r
      else match splitNl r with
        | l :: ls => ('\n' :: l) :: ls
        | [] => [['\n']]) = [] :: splitNl r
    simp
  | cons c cs ih =>
    have hc : ¬(c == '\n') = true := by
      simp [beq_iff_eq]
      exact fun hcc => h (hcc ▸ List.mem_cons_self c cs)
    show (if c == '\n' then [] :: splitNl (cs ++ '\n' :: r)
      else match splitNl (cs ++ '\n' :: r) with
        | l :: ls => (c :: l) :: ls
        | [] => [[c]]) = (c :: cs) :: splitNl r
    rw [if_neg hc, ih (fun hm => h (List.mem_cons_of_mem c hm))]

theorem splitNl_joinNl (lines : List (List Char)) (hne : lines ≠ [])
    (h : ∀ l ∈ lines, '\n' ∉ l) : splitNl (joinNl lines) = lines := by
  induction lines with
  | nil => exact absurd rfl hne
  | cons l ls ih =>
    cases ls with
    | nil =>
      show splitNl l = [l]
      exact splitNl_nonl l (h l (List.mem_cons_self l []))
    | cons l2 ls2 =>
      show splitNl (l ++ '\n' :: joinNl (l2 :: ls2)) = l :: (l2 :: ls2)
      rw [splitNl_append_nl l _ (h l (List.mem_cons_self l _))]
      rw [ih (by simp) (fun x hx => h x (List.mem_cons_of_mem l hx))]

/-! ### `splitComment` -/

theorem findPct_append (u : List Char) :
    ∀ prev i v, goodCode prev u = true →
      findPctAux prev i (u ++ '%' :: v) = some (i + u.length) := by
  induction u with
  | nil =>
    intro prev i v hg
    have hg2 : (!(prev == some bslash)) = true := hg
    simp only [Bool.not_eq_true'] at hg2
    show (if '%' == '%' && !(prev == some bslash) then some i
      else findPctAux (some '%') (i + 1) v) = some (i + 0)
    rw [hg2]
    simp
  | cons c cs ih =>
    intro prev i v hg
    have hg' : ¬(c == '%' && !(prev == some bslash)) = true ∧
        goodCode (some c) cs = true := by
      by_cases hcc : (c == '%' && !(prev == some bslash)) = true
      · exfalso
        have : goodCode prev (c :: cs) = false := by
          show (if c == '%' && !(prev == some bslash) then false
            else goodCode (some c) cs) = false
          rw [if_pos hcc]
        rw [hg] at this
        simp at this
      · constructor
        · exact hcc
        · have : goodCode prev (c :: cs) = goodCode (some c) cs := by
            show (if c == '%' && !(prev == some bslash) then false
              else goodCode (some c) cs) = goodCode (some c) cs
            rw [if_neg hcc]
          rw [← this, hg]
    show (if c == '%' && !(prev == some bslash) then some i
      else findPctAux (some c) (i + 1) (cs ++ '%' :: v)) =
      some (i + (c :: cs).length)
    rw [if_neg hg'.1, ih (some c) (i + 1) v hg'.2]
    simp only [List.length_cons, Option.some.injEq]
    omega

theorem splitComment_append (u v : List Char) (hg : goodCode none u = true) :
    splitComment (u ++ '%' :: v) = (u, '%' :: v) := by
  unfold splitComment
  rw [findPct_append u none 0 v hg]
  simp only [Nat.zero_add]
  rw [show u.length = u.length from rfl]
  congr 1
  · exact List.take_left u ('%' :: v)
  · exact List.drop_left u ('%' :: v)

/-! ### The theorem-environment stage and comments -/

theorem processLine_split (u v : List Char) (hg : goodCode none u = true) :
    processLine (u ++ '%' :: v) = processTheoremLine u ++ '%' :: v := by
  unfold processLine
  rw [splitComment_append u v hg]


/-! ### `stripWs` -/

theorem dropWhile_dropWhile (p : Char → Bool) (l : List Char) :
    (l.dropWhile p).dropWhile p = l.dropWhile p := by
  induction l with
  | nil => rfl
  | cons c cs ih =>
    rw [List.dropWhile_cons]
    by_cases h : p c = true
    · rw [if_pos h]
      exact ih
    · rw [if_neg h, List.dropWhile_cons, if_neg h]

theorem dropWhile_head_false {p : Char → Bool} {l : List Char} {c : Char}
    {cs : List Char} (h : l.dropWhile p = c :: cs) : p c = false := by
  induction l with
  | nil => simp [List.dropWhile] at h
  | cons a as ih =>
    rw [List.dropWhile_cons] at h
    by_cases hp : p a = true
    · rw [if_pos hp] at h
      exact ih h
    · rw [if_neg hp] at h
      injection h with h1 _
      subst h1
      exact Bool.eq_false_iff.mpr hp

theorem stripWs_nil : stripWs [] = [] := rfl

theorem stripWs_idem (l : List Char) : stripWs (stripWs l) = stripWs l := by
  rcases hz : stripWs l with _ | ⟨c, cs⟩
  · rfl
  · have hD : ((l.dropWhile isSpaceC).reverse.dropWhile isSpaceC).reverse =
        c :: cs := hz
    have hy : l.dropWhile isSpaceC = (c :: cs) ++
        ((l.dropWhile isSpaceC).reverse.takeWhile isSpaceC).reverse := by
      conv_lhs => rw [← List.reverse_reverse (l.dropWhile isSpaceC)]
      conv_lhs =>
        rw [← List.takeWhile_append_dropWhile isSpaceC
          (l.dropWhile isSpaceC).reverse]
      rw [List.reverse_append, hD]
    have hy' : l.dropWhile isSpaceC = c :: (cs ++
        ((l.dropWhile isSpaceC).reverse.takeWhile isSpaceC).reverse) :=
      hy.trans (List.cons_append c cs _)
    have hc : isSpaceC c = false := dropWhile_head_false hy'
    show ((List.dropWhile isSpaceC (c :: cs)).reverse.dropWhile
      isSpaceC).reverse = c :: cs
    rw [List.dropWhile_cons, if_neg (by rw [hc]; exact Bool.false_ne_true)]
    rw [← hD, List.reverse_reverse, dropWhile_dropWhile]

theorem stripWs_keep (c d : Char) (mid : List Char) (hc : isSpaceC c = false)
    (hd : isSpaceC d = false) :
    stripWs (c :: (mid ++ [d])) = c :: (mid ++ [d]) := by
  unfold stripWs
  rw [List.dropWhile_cons, if_neg (by rw [hc]; exact Bool.false_ne_true)]
  have hrev : (c :: (mid ++ [d])).reverse = d :: (mid.reverse ++ [c]) := by
    simp
  rw [hrev, List.dropWhile_cons, if_neg (by rw [hd]; exact Bool.false_ne_true)]
  rw [show (d :: (mid.reverse ++ [c])).reverse = c :: (mid ++ [d]) by simp]

theorem stripWs_secLine (t : List Char) : stripWs (secLine t) = secLine t := by
  have h : secLine t = '\\' :: ((str "section\x7b" ++ t) ++ [rbrace]) := by
    unfold secLine
    rw [show str "\\section\x7b" = '\\' :: str "section\x7b" from rfl,
      show str "\x7d" = [rbrace] from rfl]
    simp
  rw [h]
  exact stripWs_keep '\\' rbrace (str "section\x7b" ++ t) (by decide) (by decide)


/-! ### Beamer flattener lemmas -/

theorem frameBeginStep_out (inside tset : Bool) (code : List Char) :
    ∀ x ∈ (frameBeginStep inside tset code).2.1, ∃ t, x = secLine t := by
  intro x hx
  unfold frameBeginStep at hx
  split at hx
  · dsimp only at hx
    split at hx
    · simp at hx
    · simp at hx
      exact ⟨_, hx⟩
  · simp at hx

theorem frametitleStep_out (inside tset : Bool) (code : List Char) :
    ∀ x ∈ (frametitleStep inside tset code).2.1, ∃ t, x = secLine t := by
  intro x hx
  unfold frametitleStep at hx
  split at hx
  · split at hx
    · dsimp only at hx
      split at hx
      · simp at hx
        exact ⟨_, hx⟩
      · simp at hx
    · simp at hx
  · simp at hx

theorem beamerLine_out (st : Bool × Bool) (line : List Char) :
    ∀ x ∈ (beamerLine st line).2, stripWs x = x := by
  intro x hx
  unfold beamerLine at hx
  dsimp only at hx
  rw [List.mem_append] at hx
  rcases hx with h | h
  · rw [List.mem_append] at h
    rcases h with h | h
    · obtain ⟨t, ht⟩ := frameBeginStep_out _ _ _ x h
      rw [ht]
      exact stripWs_secLine t
    · obtain ⟨t, ht⟩ := frametitleStep_out _ _ _ x h
      rw [ht]
      exact stripWs_secLine t
  · rw [List.mem_singleton] at h
    rw [h]
    exact stripWs_idem _

theorem beamerFold_out (lines : List (List Char)) :
    ∀ st x, x ∈ beamerFold st lines → stripWs x = x := by
  induction lines with
  | nil =>
    intro st x hx
    simp [beamerFold] at hx
  | cons l ls ih =>
    intro st x hx
    unfold beamerFold at hx
    dsimp only at hx
    rw [List.mem_append] at hx
    rcases hx with h | h
    · exact beamerLine_out st l x h
    · exact ih _ x h

/-! ### Include resolver lemmas -/

theorem withTex_ends (name : List Char) :
    endsWith (str ".tex") (withTex name) = true := by
  unfold withTex
  by_cases h : endsWith (str ".tex") name = true
  · rw [if_pos h]
    exact h
  · rw [if_neg h]
    show begins (str ".tex").reverse (name ++ str ".tex").reverse = true
    rw [List.reverse_append]
    exact begins_append_self _ _

theorem resolveStep_cons_none (recur : List Char → List Char →
      Option (List Char)) (fs : FS) (base l : List Char)
    (ls : List (List Char)) (h : lineMatch l = none) :
    resolveStep recur fs base (l :: ls) =
      match resolveStep recur fs base ls with
      | some rest => some (l :: rest)
      | none => none := by
  conv_lhs => unfold resolveStep
  rw [h]

theorem resolveStep_path (fs : FS) (base name : List Char) :
    (if (fs (pjoin base (withTex name))).isNone &&
        !endsWith (str ".tex") (withTex name) then
      pjoin base (withTex name ++ str ".tex")
    else pjoin base (withTex name)) = pjoin base (withTex name) := by
  rw [withTex_ends name]
  simp

theorem resolveStep_cons_found (recur : List Char → List Char →
      Option (List Char)) (fs : FS) (base l : List Char)
    (ls : List (List Char)) (name inc : List Char)
    (h1 : lineMatch l = some name)
    (h2 : fs (pjoin base (withTex name)) = some inc) :
    resolveStep recur fs base (l :: ls) =
      match recur (dirname (pjoin base (withTex name))) inc,
          resolveStep recur fs base ls with
      | some rinc, some rest => some (rinc :: rest)
      | _, _ => none := by
  conv_lhs => unfold resolveStep
  rw [h1]
  dsimp only
  rw [resolveStep_path fs base name, h2]

theorem resolveStep_cons_missing (recur : List Char → List Char →
      Option (List Char)) (fs : FS) (base l : List Char)
    (ls : List (List Char)) (name : List Char)
    (h1 : lineMatch l = some name)
    (h2 : fs (pjoin base (withTex name)) = none) :
    resolveStep recur fs base (l :: ls) =
      match resolveStep recur fs base ls with
      | some rest => some (l :: rest)
      | none => none := by
  conv_lhs => unfold resolveStep
  rw [h1]
  dsimp only
  rw [resolveStep_path fs base name, h2]

theorem resolveStep_pass (recur : List Char → List Char →
      Option (List Char)) (fs : FS) (base : List Char)
    (pre rest : List (List Char))
    (hpre : ∀ l ∈ pre, lineMatch l = none) :
    resolveStep recur fs base (pre ++ rest) =
      match resolveStep recur fs base rest with
      | some r => some (pre ++ r)
      | none => none := by
  induction pre with
  | nil =>
    rw [List.nil_append]
    cases h : resolveStep recur fs base rest <;> simp [h]
  | cons l ls ih =>
    rw [List.cons_append,
      resolveStep_cons_none recur fs base l (ls ++ rest)
        (hpre l (List.mem_cons_self l ls)),
      ih (fun x hx => hpre x (List.mem_cons_of_mem l hx))]
    cases resolveStep recur fs base rest <;> simp

theorem resolveStep_id (recur : List Char → List Char →
      Option (List Char)) (fs : FS) (base : List Char)
    (ls : List (List Char)) (h : ∀ l ∈ ls, lineMatch l = none) :
    resolveStep recur fs base ls = some ls := by
  have h2 := resolveStep_pass recur fs base ls [] h
  rw [List.append_nil,
    show resolveStep recur fs base [] = some [] from rfl] at h2
  simpa using h2


/-! ### HTML post-processor lemmas -/

theorem hasChar_eq_false_iff (a : Char) (l : List Char) :
    hasChar a l = false ↔ a ∉ l := by
  induction l with
  | nil => simp [hasChar]
  | cons c cs ih =>
    show (if a == c then true else hasChar a cs) = false ↔ a ∉ c :: cs
    by_cases h : a = c
    · subst h
      simp
    · rw [if_neg (by simp [beq_iff_eq, h])]
      simp [ih, h]

theorem cssMid_no_lt : '<' ∉ cssMid :=
  (hasChar_eq_false_iff '<' cssMid).mp (by decide)

theorem length_dropWhile_le (p : Char → Bool) (l : List Char) :
    (l.dropWhile p).length ≤ l.length := by
  induction l with
  | nil => simp
  | cons c cs ih =>
    rw [List.dropWhile_cons]
    split
    · exact le_trans ih (by simp)
    · simp

theorem tryBq_consumes (kw env : List Char) :
    ∀ s o r, tryBq kw env s = some (o, r) → r.length < s.length := by
  intro s o r h
  unfold tryBq at h
  split at h
  case isFalse => exact absurd h (by simp)
  case isTrue hb =>
    dsimp only at h
    split at h
    case isFalse => exact absurd h (by simp)
    case isTrue hp =>
      split at h
      case isFalse => exact absurd h (by simp)
      case isTrue hs =>
        simp only [Option.some.injEq, Prod.mk.injEq] at h
        obtain ⟨-, hr⟩ := h
        subst hr
        have h12 : (str "<blockquote>").length ≤ s.length := begins_length_le hb
        have e12 : (str "<blockquote>").length = 12 := rfl
        have l0 : (List.drop (str "<blockquote>").length s).length =
            s.length - 12 := by rw [List.length_drop, e12]
        have l1 := length_dropWhile_le isSpaceC
          (List.drop (str "<blockquote>").length s)
        have l2 : (List.drop (str "<p>").length
            ((List.drop (str "<blockquote>").length s).dropWhile
              isSpaceC)).length ≤
            ((List.drop (str "<blockquote>").length s).dropWhile
              isSpaceC).length := by
          rw [List.length_drop]
          omega
        have l3 := length_dropWhile_le isSpaceC
          (List.drop (str "<p>").length
            ((List.drop (str "<blockquote>").length s).dropWhile isSpaceC))
        have l4 : (List.drop (str "<strong>" ++ kw ++ str "</strong>").length
            ((List.drop (str "<p>").length
              ((List.drop (str "<blockquote>").length s).dropWhile
                isSpaceC)).dropWhile isSpaceC)).length ≤
            ((List.drop (str "<p>").length
              ((List.drop (str "<blockquote>").length s).dropWhile
                isSpaceC)).dropWhile isSpaceC).length := by
          rw [List.length_drop]
          omega
        rw [e12] at h12
        omega

theorem tryBq_anchor (kw env : List Char) (c : Char) (cs : List Char)
    (hc : c ≠ '<') : tryBq kw env (c :: cs) = none := by
  unfold tryBq
  rw [show str "<blockquote>" = '<' :: str "blockquote>" from rfl,
    @begins_cons_false '<' _ _ cs hc]
  simp

theorem foldl_id {α : Type} (f : List Char → α → List Char) (x : List Char)
    (l : List α) (h : ∀ p ∈ l, f x p = x) : l.foldl f x = x := by
  induction l with
  | nil => rfl
  | cons p ps ih =>
    show List.foldl f (f x p) ps = x
    rw [h p (List.mem_cons_self p ps)]
    exact ih (fun q hq => h q (List.mem_cons_of_mem p hq))

theorem runScan_css (step : List Char → Option (List Char × List Char))
    (hanch : ∀ c cs, c ≠ '<' → step (c :: cs) = none) (rest : List Char)
    (h2 : ∀ i, i < cssOpen.length →
      step (List.drop i cssOpen ++ (cssMid ++ (cssClose ++ rest))) = none)
    (h3 : ∀ i, i < cssClose.length →
      step (List.drop i cssClose ++ rest) = none) :
    runScan step (accessibility_css ++ rest) =
      accessibility_css ++ runScan step rest := by
  have hnl : '<' ∉ cssNl := by decide
  show runScan step ((cssNl ++ (cssOpen ++ (cssMid ++ cssClose))) ++ rest) =
    (cssNl ++ (cssOpen ++ (cssMid ++ cssClose))) ++ runScan step rest
  simp only [List.append_assoc]
  rw [runScan_seg step '<' hanch cssNl _ hnl,
    runScan_pre step cssOpen _ h2,
    runScan_seg step '<' hanch cssMid _ cssMid_no_lt,
    runScan_pre step cssClose _ h3]

theorem scan_id_css (step : List Char → Option (List Char × List Char))
    (hanch : ∀ c cs, c ≠ '<' → step (c :: cs) = none) (pre post : List Char)
    (H : NoHit step pre post) :
    runScan step (pre ++ (accessibility_css ++ post)) =
      pre ++ (accessibility_css ++ post) := by
  rw [runScan_pre step pre _ H.1,
    runScan_css step hanch post H.2.1 H.2.2.1,
    runScan_end step post H.2.2.2]

theorem enhanceKw_id (pre post : List Char) (p : List Char × List Char)
    (H1 : NoHit (tryLit (str "<p><strong>" ++ p.1 ++ str "</strong>")
      (str "<p data-theorem=\"" ++ p.2 ++ str "\"><strong>" ++ p.1 ++
        str "</strong>")) pre post)
    (H2 : NoHit (tryLit (str "<strong>" ++ p.1 ++ str "</strong>")
      (str "<strong class=\"theorem-label\">" ++ p.1 ++ str "</strong>"))
      pre post)
    (H3 : NoHit (tryBq p.1 p.2) pre post) :
    enhanceKw (pre ++ (accessibility_css ++ post)) p =
      pre ++ (accessibility_css ++ post) := by
  unfold enhanceKw
  have e1 : str "<p><strong>" ++ p.1 ++ str "</strong>" =
      '<' :: (str "p><strong>" ++ p.1 ++ str "</strong>") := rfl
  have e2 : str "<strong>" ++ p.1 ++ str "</strong>" =
      '<' :: (str "strong>" ++ p.1 ++ str "</strong>") := rfl
  have s1 := scan_id_css _
    (fun c cs hc => by
      rw [e1]
      exact tryLit_anchor '<' _ _ c cs hc) pre post H1
  have s2 := scan_id_css _
    (fun c cs hc => by
      rw [e2]
      exact tryLit_anchor '<' _ _ c cs hc) pre post H2
  have s3 := scan_id_css _
    (fun c cs hc => tryBq_anchor p.1 p.2 c cs hc) pre post H3
  dsimp only
  rw [show replaceAll (str "<p><strong>" ++ p.1 ++ str "</strong>") _
      (pre ++ (accessibility_css ++ post)) =
      pre ++ (accessibility_css ++ post) from s1,
    show replaceAll (str "<strong>" ++ p.1 ++ str "</strong>") _
      (pre ++ (accessibility_css ++ post)) =
      pre ++ (accessibility_css ++ post) from s2]
  exact s3


theorem addLang_nil : addLang [] = [] := rfl

theorem addLang_cons_none (c : Char) (cs : List Char)
    (h : langTry (c :: cs) = none) :
    addLang (c :: cs) = c :: addLang cs := by
  show (match langTry (c :: cs) with
    | some (run, after) =>
      str "<html" ++ run ++ str " lang=\"en\">" ++ after
    | none => c :: addLang cs) = c :: addLang cs
  rw [h]

theorem addLang_cons_some (c : Char) (cs run after : List Char)
    (h : langTry (c :: cs) = some (run, after)) :
    addLang (c :: cs) = str "<html" ++ run ++ str " lang=\"en\">" ++ after := by
  show (match langTry (c :: cs) with
    | some (run, after) =>
      str "<html" ++ run ++ str " lang=\"en\">" ++ after
    | none => c :: addLang cs) = _
  rw [h]

theorem langTry_anchor (c : Char) (cs : List Char) (hc : c ≠ '<') :
    langTry (c :: cs) = none := by
  unfold langTry
  rw [show str "<html" = '<' :: str "html" from rfl,
    @begins_cons_false '<' _ _ cs hc]
  simp

theorem addLang_pre (a rest : List Char)
    (h : ∀ i, i < a.length → langTry (List.drop i a ++ rest) = none) :
    addLang (a ++ rest) = a ++ addLang rest := by
  induction a with
  | nil => simp
  | cons c cs ih =>
    have h0 : langTry (c :: (cs ++ rest)) = none := by
      have h0' := h 0 (by simp)
      rw [List.drop_zero] at h0'
      exact h0'
    rw [List.cons_append, addLang_cons_none c (cs ++ rest) h0,
      ih (fun i hi => by
        have := h (i + 1) (by simpa using Nat.succ_lt_succ hi)
        rwa [List.drop_succ_cons] at this)]
    exact (List.cons_append c cs _).symm

theorem addLang_seg (seg rest : List Char) (hseg : '<' ∉ seg) :
    addLang (seg ++ rest) = seg ++ addLang rest := by
  induction seg with
  | nil => simp
  | cons c cs ih =>
    have hc : c ≠ '<' := fun h => hseg (h ▸ List.mem_cons_self c cs)
    rw [List.cons_append, addLang_cons_none c (cs ++ rest)
      (langTry_anchor c (cs ++ rest) hc),
      ih (fun h => hseg (List.mem_cons_of_mem c h))]
    exact (List.cons_append c cs _).symm

theorem addLang_end (s : List Char)
    (h : ∀ i, i < s.length → langTry (List.drop i s) = none) :
    addLang s = s := by
  have h2 := addLang_pre s []
    (fun i hi => by rw [List.append_nil]; exact h i hi)
  rw [List.append_nil, addLang_nil, List.append_nil] at h2
  exact h2

theorem addLang_css (rest : List Char)
    (h2 : ∀ i, i < cssOpen.length →
      langTry (List.drop i cssOpen ++ (cssMid ++ (cssClose ++ rest))) = none)
    (h3 : ∀ i, i < cssClose.length →
      langTry (List.drop i cssClose ++ rest) = none) :
    addLang (accessibility_css ++ rest) =
      accessibility_css ++ addLang rest := by
  have hnl : '<' ∉ cssNl := by decide
  show addLang ((cssNl ++ (cssOpen ++ (cssMid ++ cssClose))) ++ rest) =
    (cssNl ++ (cssOpen ++ (cssMid ++ cssClose))) ++ addLang rest
  simp only [List.append_assoc]
  rw [addLang_seg cssNl _ hnl, addLang_pre cssOpen _ h2,
    addLang_seg cssMid _ cssMid_no_lt, addLang_pre cssClose _ h3]

theorem langTry_htmlgt (X : List Char) :
    langTry (str "<html>" ++ X) = some ([], X) := by
  unfold langTry
  have hb : begins (str "<html") (str "<html>" ++ X) = true := by
    rw [begins_append_of_le X (by decide)]
    decide
  rw [hb]
  have hd : List.drop (str "<html").length (str "<html>" ++ X) =
      '>' :: X := by
    rw [List.drop_append_of_le_length (by decide)]
    rfl
  simp only [if_pos, hd]
  rw [List.takeWhile_cons, List.dropWhile_cons]
  simp [hasLangWB]


theorem c3mB_noHit : ∀ i, i < c3mB.length →
    tryLit (str "</head>") (accessibility_css ++ str "</head>")
      (List.drop i c3mB) = none := by decide

theorem addLang_html_hit (Z : List Char) :
    addLang (str "<html>" ++ Z) =
      str "<html" ++ [] ++ str " lang=\"en\">" ++ Z :=
  addLang_cons_some '<' (str "html>" ++ Z) [] Z (langTry_htmlgt Z)

theorem c3_assemble (Z : List Char) :
    str "<html" ++ [] ++ str " lang=\"en\">" ++ (str "<head>" ++ Z) =
      c3pre ++ Z := rfl

theorem enhance_first :
    enhance_html_accessibility c3html =
      c3pre ++ (accessibility_css ++ c3post) := by
  have h0 : kwPairs.foldl enhanceKw c3html = c3mid := by decide
  have hco : containsSub (str "</head>") c3mid = true := by decide
  have hA : ∀ i, i < (str "<html><head>").length →
      tryLit (str "</head>") (accessibility_css ++ str "</head>")
        (List.drop i (str "<html><head>") ++ (str "</head>" ++ c3mB)) =
        none := by decide
  have hsplice : replaceAll (str "</head>")
      (accessibility_css ++ str "</head>") c3mid =
      str "<html><head>" ++ ((accessibility_css ++ str "</head>") ++ c3mB) := by
    rw [show c3mid = str "<html><head>" ++ (str "</head>" ++ c3mB) from rfl]
    show runScan (tryLit (str "</head>") (accessibility_css ++ str "</head>"))
      (str "<html><head>" ++ (str "</head>" ++ c3mB)) = _
    rw [runScan_pre _ _ _ hA,
      show (str "</head>" ++ c3mB : List Char) =
        '<' :: (str "/head>" ++ c3mB) from rfl,
      runScan_cons_some _ (tryLit_consumes _ _) '<' (str "/head>" ++ c3mB)
        (accessibility_css ++ str "</head>") c3mB
        (tryLit_self (str "</head>") (accessibility_css ++ str "</head>")
          c3mB (by decide)),
      runScan_end _ _ c3mB_noHit]
  show addLang (if containsSub (str "</head>")
      (kwPairs.foldl enhanceKw c3html) = true then
      replaceAll (str "</head>") (accessibility_css ++ str "</head>")
        (kwPairs.foldl enhanceKw c3html)
    else str "<head>" ++ accessibility_css ++ str "</head>" ++
      (kwPairs.foldl enhanceKw c3html)) = _
  rw [h0, if_pos hco, hsplice,
    show str "<html><head>" ++
        ((accessibility_css ++ str "</head>") ++ c3mB) =
      str "<html>" ++ (str "<head>" ++
        ((accessibility_css ++ str "</head>") ++ c3mB)) from rfl,
    addLang_html_hit, c3_assemble,
    List.append_assoc accessibility_css (str "</head>") c3mB,
    show (str "</head>" ++ c3mB : List Char) = c3post from rfl]

theorem c3_kw1 : ∀ p ∈ kwPairs,
    NoHit (tryLit (str "<p><strong>" ++ p.1 ++ str "</strong>")
      (str "<p data-theorem=\"" ++ p.2 ++ str "\"><strong>" ++ p.1 ++
        str "</strong>")) c3pre c3post := by decide

theorem c3_kw2 : ∀ p ∈ kwPairs,
    NoHit (tryLit (str "<strong>" ++ p.1 ++ str "</strong>")
      (str "<strong class=\"theorem-label\">" ++ p.1 ++ str "</strong>"))
      c3pre c3post := by decide

theorem c3_kw3 : ∀ p ∈ kwPairs, NoHit (tryBq p.1 p.2) c3pre c3post := by
  decide

theorem enhance_second :
    enhance_html_accessibility (c3pre ++ (accessibility_css ++ c3post)) =
      c3pre ++ (accessibility_css ++ (accessibility_css ++ c3post)) := by
  have hfold : kwPairs.foldl enhanceKw
      (c3pre ++ (accessibility_css ++ c3post)) =
      c3pre ++ (accessibility_css ++ c3post) :=
    foldl_id enhanceKw _ kwPairs (fun p hp =>
      enhanceKw_id c3pre c3post p (c3_kw1 p hp) (c3_kw2 p hp) (c3_kw3 p hp))
  have hco : containsSub (str "</head>")
      (c3pre ++ (accessibility_css ++ c3post)) = true := by
    refine containsSub_tail _ _ _ (containsSub_tail _ _ _ ?_)
    decide
  have hanchHd : ∀ c cs, c ≠ '<' →
      tryLit (str "</head>") (accessibility_css ++ str "</head>")
        (c :: cs) = none := fun c cs hc => by
    rw [show str "</head>" = '<' :: str "/head>" from rfl]
    exact tryLit_anchor '<' _ _ c cs hc
  have hpre2 : ∀ i, i < c3pre.length →
      tryLit (str "</head>") (accessibility_css ++ str "</head>")
        (List.drop i c3pre ++ (accessibility_css ++ c3post)) = none := by
    decide
  have hop2 : ∀ i, i < cssOpen.length →
      tryLit (str "</head>") (accessibility_css ++ str "</head>")
        (List.drop i cssOpen ++ (cssMid ++ (cssClose ++ c3post))) = none := by
    decide
  have hcl2 : ∀ i, i < cssClose.length →
      tryLit (str "</head>") (accessibility_css ++ str "</head>")
        (List.drop i cssClose ++ c3post) = none := by decide
  have hsplice : replaceAll (str "</head>")
      (accessibility_css ++ str "</head>")
      (c3pre ++ (accessibility_css ++ c3post)) =
      c3pre ++ (accessibility_css ++
        ((accessibility_css ++ str "</head>") ++ c3mB)) := by
    show runScan (tryLit (str "</head>") (accessibility_css ++ str "</head>"))
      (c3pre ++ (accessibility_css ++ c3post)) = _
    rw [runScan_pre _ _ _ hpre2,
      runScan_css _ hanchHd c3post hop2 hcl2,
      show c3post = '<' :: (str "/head>" ++ c3mB) from rfl,
      runScan_cons_some _ (tryLit_consumes _ _) '<' (str "/head>" ++ c3mB)
        (accessibility_css ++ str "</head>") c3mB
        (tryLit_self (str "</head>") (accessibility_css ++ str "</head>")
          c3mB (by decide)),
      runScan_end _ _ c3mB_noHit]
  have hL1 : ∀ i, i < c3pre.length →
      langTry (List.drop i c3pre ++ (accessibility_css ++
        (accessibility_css ++ c3post))) = none := by decide
  have hL2a : ∀ i, i < cssOpen.length →
      langTry (List.drop i cssOpen ++ (cssMid ++ (cssClose ++
        (accessibility_css ++ c3post)))) = none := by decide
  have hL3a : ∀ i, i < cssClose.length →
      langTry (List.drop i cssClose ++ (accessibility_css ++ c3post)) =
        none := by decide
  have hL2b : ∀ i, i < cssOpen.length →
      langTry (List.drop i cssOpen ++ (cssMid ++ (cssClose ++ c3post))) =
        none := by decide
  have hL3b : ∀ i, i < cssClose.length →
      langTry (List.drop i cssClose ++ c3post) = none := by decide
  have hLend : ∀ i, i < c3post.length →
      langTry (List.drop i c3post) = none := by decide
  show addLang (if containsSub (str "</head>")
      (kwPairs.foldl enhanceKw (c3pre ++ (accessibility_css ++ c3post))) =
        true then
      replaceAll (str "</head>") (accessibility_css ++ str "</head>")
        (kwPairs.foldl enhanceKw (c3pre ++ (accessibility_css ++ c3post)))
    else str "<head>" ++ accessibility_css ++ str "</head>" ++
      (kwPairs.foldl enhanceKw (c3pre ++ (accessibility_css ++ c3post)))) = _
  rw [hfold, if_pos hco, hsplice,
    List.append_assoc accessibility_css (str "</head>") c3mB,
    show (str "</head>" ++ c3mB : List Char) = c3post from rfl,
    addLang_pre c3pre _ hL1, addLang_css _ hL2a hL3a,
    addLang_css _ hL2b hL3b, addLang_end _ hLend]


/-! ## Claim theorems -/

/-- **C3, counterexample.**  The HTML accessibility/theming post-processor
is *not* idempotent: on the converter-style document `c3html` a second
application changes the file again, because
`content.replace('</head>', css + '</head>')` re-inserts the stylesheet
block before `</head>` on every call. -/
theorem c3_counterexample :
    enhance_html_accessibility (enhance_html_accessibility c3html) ≠
      enhance_html_accessibility c3html := by
  rw [enhance_first, enhance_second]
  intro h
  have h1 := List.append_cancel_left h
  have h2 := List.append_cancel_left h1
  have h3 := congrArg List.length h2
  rw [List.length_append] at h3
  have h4 : accessibility_css = [] :=
    List.length_eq_zero.mp (by omega)
  have h5 : accessibility_css = '\n' :: (cssOpen ++ (cssMid ++ cssClose)) :=
    rfl
  rw [h4] at h5
  exact absurd h5 (by simp)

/-- **C3, amended.**  Applying the post-processor once to `c3html` yields a
lang-attributed document with the stylesheet injected exactly once before
`</head>`; applying it a second time duplicates exactly the injected
stylesheet block (each call re-inserts a copy before `</head>`), while the
lang attribute, the theorem data attributes and the label classes of the
surrounding text are left untouched (the prefix `c3pre` and suffix
`c3post`, which carry them, are unchanged). -/
theorem c3_amended :
    enhance_html_accessibility c3html =
      c3pre ++ (accessibility_css ++ c3post) ∧
    enhance_html_accessibility (enhance_html_accessibility c3html) =
      c3pre ++ (accessibility_css ++ (accessibility_css ++ c3post)) := by
  refine ⟨enhance_first, ?_⟩
  rw [enhance_first]
  exact enhance_second


theorem c1_all : ∀ p ∈ theoremEnvs,
    preprocess_latex (c1docT p.1) = c1expT p.2 ∧
    preprocess_latex (c1docN p.1) = c1expN p.2 ∧
    preprocess_latex_simple (c1docT p.1) = c1expT p.2 ∧
    preprocess_latex_simple (c1docN p.1) = c1expN p.2 := by decide

/-- **C1.**  For every one of the 9 recognized theorem environment
keywords `K` with display name `D`, preprocessing a document containing
`\begin{K}[T]...\end{K}` (begin and end on non-comment parts of lines)
produces a quote block `\begin{quote}...\end{quote}` whose bold label is
`D (T):` followed by a single space and the body, and `D:` when no
bracketed title is supplied — in both `preprocess_latex` (app.py) and
`preprocess_latex_simple` (simple_converter.py). -/
theorem c1_theorem_envs (env disp : List Char)
    (h : (env, disp) ∈ theoremEnvs) :
    preprocess_latex (c1docT env) = c1expT disp ∧
    preprocess_latex (c1docN env) = c1expN disp ∧
    preprocess_latex_simple (c1docT env) = c1expT disp ∧
    preprocess_latex_simple (c1docN env) = c1expN disp :=
  c1_all (env, disp) h

/-- Witness for C1 at the `theorem`/`Theorem` pair. -/
theorem c1_witness :
    ((str "theorem", str "Theorem") ∈ theoremEnvs) ∧
    (preprocess_latex (c1docT (str "theorem")) = c1expT (str "Theorem") ∧
     preprocess_latex (c1docN (str "theorem")) = c1expN (str "Theorem") ∧
     preprocess_latex_simple (c1docT (str "theorem")) =
       c1expT (str "Theorem") ∧
     preprocess_latex_simple (c1docN (str "theorem")) =
       c1expN (str "Theorem")) :=
  ⟨by decide, c1_theorem_envs (str "theorem") (str "Theorem") (by decide)⟩

/-- **C2, counterexample.**  On a document with a `\title` and *two*
`\maketitle` occurrences, `preprocess_latex` replaces *both* occurrences
(`str.replace` without a count): no `\maketitle` survives and the title
block appears twice, contradicting "only the first occurrence is replaced"
and "the title block appears at most once". -/
theorem c2_counterexample :
    countSub mkTok c2doc = 2 ∧
    countSub mkTok (preprocess_latex c2doc) = 0 ∧
    countSub c2blockMark (preprocess_latex c2doc) = 2 := by decide

theorem mkTok_cons : mkTok = bslash :: str "maketitle" := rfl

theorem bdocTok_cons : bdocTok = bslash :: str "begin\x7bdocument\x7d" := rfl

/-- **C2, amended.**  When a non-empty title block is built, the placement
stage (app.py lines 90-96 = simple_converter.py lines 71-77) replaces
*every* `\maketitle` occurrence by the block; else it inserts the block
once immediately after the first `\begin{document}`; else it prepends it
once.  (The original claim's "only the first \maketitle occurrence" and
"at most once in the output" fail, see the counterexample.) -/
theorem c2_title_placement (blk a b c e f d : List Char)
    (ha : bslash ∉ a) (hb : bslash ∉ b) (hc : bslash ∉ c)
    (he : bslash ∉ e) (hf : bslash ∉ f)
    (hd1 : containsSub mkTok d = false)
    (hd2 : containsSub bdocTok d = false) :
    placeTitle (some blk) (a ++ (mkTok ++ (b ++ (mkTok ++ c)))) =
      a ++ (blk ++ (b ++ (blk ++ c))) ∧
    placeTitle (some blk) (e ++ (bdocTok ++ f)) =
      e ++ ((bdocTok ++ '\n' :: blk) ++ f) ∧
    placeTitle (some blk) d = blk ++ '\n' :: d := by
  refine ⟨?_, ?_, ?_⟩
  · -- replace-all branch
    have hcon : containsSub mkTok (a ++ (mkTok ++ (b ++ (mkTok ++ c)))) =
        true := by
      rw [mkTok_cons, containsSub_append_skip bslash _ a _ ha,
        ← mkTok_cons]
      exact containsSub_here mkTok _ (by decide)
    show (if containsSub mkTok (a ++ (mkTok ++ (b ++ (mkTok ++ c)))) = true
      then replaceAll mkTok blk (a ++ (mkTok ++ (b ++ (mkTok ++ c))))
      else if containsSub bdocTok (a ++ (mkTok ++ (b ++ (mkTok ++ c)))) =
          true
        then replaceFirst bdocTok (bdocTok ++ '\n' :: blk)
          (a ++ (mkTok ++ (b ++ (mkTok ++ c))))
        else blk ++ '\n' :: (a ++ (mkTok ++ (b ++ (mkTok ++ c))))) = _
    rw [if_pos hcon, mkTok_cons,
      replaceAll_pass bslash _ blk a _ ha,
      replaceAll_hit _ blk _ (by decide),
      replaceAll_pass bslash _ blk b _ hb,
      replaceAll_hit _ blk _ (by decide),
      replaceAll_skip bslash _ blk c hc]
  · -- insert-after-begin-document branch
    have hno : containsSub mkTok (e ++ (bdocTok ++ f)) = false := by
      rw [mkTok_cons, containsSub_append_skip bslash _ e _ he]
      show (begins (bslash :: str "maketitle") (bdocTok ++ f) ||
        containsSub (bslash :: str "maketitle")
          (str "begin\x7bdocument\x7d" ++ f)) = false
      rw [begins_append_of_le f (by decide),
        containsSub_append_skip bslash _ _ f (by decide),
        containsSub_none bslash _ f hf]
      decide
    have hbd : containsSub bdocTok (e ++ (bdocTok ++ f)) = true := by
      rw [bdocTok_cons, containsSub_append_skip bslash _ e _ he,
        ← bdocTok_cons]
      exact containsSub_here bdocTok _ (by decide)
    show (if containsSub mkTok (e ++ (bdocTok ++ f)) = true
      then replaceAll mkTok blk (e ++ (bdocTok ++ f))
      else if containsSub bdocTok (e ++ (bdocTok ++ f)) = true
        then replaceFirst bdocTok (bdocTok ++ '\n' :: blk)
          (e ++ (bdocTok ++ f))
        else blk ++ '\n' :: (e ++ (bdocTok ++ f))) = _
    rw [hno]
    simp only [Bool.false_eq_true, if_false]
    rw [if_pos hbd, bdocTok_cons,
      replaceFirst_pass bslash _ _ e _ he]
    congr 1
  · show (if containsSub mkTok d = true
      then replaceAll mkTok blk d
      else if containsSub bdocTok d = true
        then replaceFirst bdocTok (bdocTok ++ '\n' :: blk) d
        else blk ++ '\n' :: d) = _
    rw [hd1, hd2]
    simp

/-- Witness for C2 at concrete block, segments and document. -/
theorem c2_witness :
    (bslash ∉ str "A") ∧ (bslash ∉ str "B") ∧ (bslash ∉ str "C") ∧
    (containsSub mkTok (str "plain text") = false) ∧
    (containsSub bdocTok (str "plain text") = false) ∧
    (placeTitle (some (str "BLOCK"))
        (str "A" ++ (mkTok ++ (str "B" ++ (mkTok ++ str "C")))) =
      str "A" ++ (str "BLOCK" ++ (str "B" ++ (str "BLOCK" ++ str "C"))) ∧
     placeTitle (some (str "BLOCK")) (str "A" ++ (bdocTok ++ str "B")) =
      str "A" ++ ((bdocTok ++ '\n' :: str "BLOCK") ++ str "B") ∧
     placeTitle (some (str "BLOCK")) (str "plain text") =
      str "BLOCK" ++ '\n' :: str "plain text") :=
  ⟨by decide, by decide, by decide, by decide, by decide,
    c2_title_placement (str "BLOCK") (str "A") (str "B") (str "C")
      (str "A") (str "B") (str "plain text")
      (by decide) (by decide) (by decide) (by decide) (by decide)
      (by decide) (by decide)⟩

theorem c4_aux : ∀ p ∈ theoremEnvs,
    goodCode none (beginTok p.1) = true ∧
    processTheoremLine (beginTok p.1) = labelOpen p.2 := by decide

/-- **C4.**  On every line, a theorem-environment token that appears only
after the line's first unescaped `%` is untouched: when the code part `u`
contains no unescaped `%` and does not end in a backslash, the processed
line is exactly `processTheoremLine u` with the whole comment `%v`
re-appended verbatim; and a `\begin{env}` token standing before the `%`
is rewritten into the quote-block label. -/
theorem c4_comment_guard (u v env disp : List Char)
    (hmem : (env, disp) ∈ theoremEnvs) (hu : goodCode none u = true) :
    processLine (u ++ '%' :: v) = processTheoremLine u ++ '%' :: v ∧
    processLine (beginTok env ++ '%' :: v) = labelOpen disp ++ '%' :: v := by
  refine ⟨processLine_split u v hu, ?_⟩
  have h := c4_aux (env, disp) hmem
  rw [processLine_split (beginTok env) v h.1, h.2]

/-- Witness for C4 at the spec's own example `50% \begin{theorem}`. -/
theorem c4_witness :
    ((str "theorem", str "Theorem") ∈ theoremEnvs) ∧
    goodCode none (str "50") = true ∧
    (processLine (str "50" ++ '%' :: str " \x5cbegin\x7btheorem\x7d") =
      processTheoremLine (str "50") ++ '%' ::
        str " \x5cbegin\x7btheorem\x7d" ∧
     processLine (beginTok (str "theorem") ++ '%' ::
        str " \x5cbegin\x7btheorem\x7d") =
      labelOpen (str "Theorem") ++ '%' ::
        str " \x5cbegin\x7btheorem\x7d") :=
  ⟨by decide, by decide,
    c4_comment_guard (str "50") (str " \x5cbegin\x7btheorem\x7d")
      (str "theorem") (str "Theorem") (by decide) (by decide)⟩

/-- **C8.**  `\label{...}` is deleted and `\ref{name}` becomes
`\textit{name}` in app.py's `preprocess_latex`; but in
simple_converter.py's `preprocess_latex_simple` the replacement template
`r'\\textit{\\1}'` escapes the backslash, so every `\ref{name}` becomes
the literal text `\textit{\1}` and the reference name is discarded —
the code contradicts the claimed (and clearly intended) behaviour. -/
theorem c8_ref_bug :
    preprocess_latex (str "See \x5cref\x7beq:1\x7d. \x5clabel\x7bx\x7d") =
      str "See \x5ctextit\x7beq:1\x7d. " ∧
    preprocess_latex_simple
        (str "See \x5cref\x7beq:1\x7d. \x5clabel\x7bx\x7d") =
      str "See \x5ctextit\x7b\x5c1\x7d. " ∧
    preprocess_latex_simple
        (str "See \x5cref\x7beq:1\x7d. \x5clabel\x7bx\x7d") ≠
      str "See \x5ctextit\x7beq:1\x7d. " := by decide


theorem linesTargets_cons_none (base l : List Char) (ls : List (List Char))
    (h : lineMatch l = none) :
    linesTargets base (l :: ls) = linesTargets base ls := by
  unfold linesTargets
  rw [List.filterMap_cons]
  simp [h]

theorem linesTargets_cons_some (base l : List Char) (ls : List (List Char))
    (name : List Char) (h : lineMatch l = some name) :
    linesTargets base (l :: ls) =
      pjoin base (withTex name) :: linesTargets base ls := by
  unfold linesTargets
  rw [List.filterMap_cons]
  simp [h]

theorem includeTargets_eq (base content : List Char) :
    includeTargets base content = linesTargets base (splitNl content) := rfl

theorem resolveStep_total (fs : FS) (m : List Char → Nat)
    (H1 : ∀ p c, fs p = some c → ∀ q ∈ includeTargets (dirname p) c,
      fs q ≠ none → m q < m p) :
    ∀ fuel base lines,
      (∀ q ∈ linesTargets base lines, fs q ≠ none → m q < fuel) →
      resolveStep (fun b c => resolve_includesF fuel fs b c) fs base lines ≠
        none := by
  intro fuel
  induction fuel using Nat.strong_induction_on with
  | _ fuel SIH =>
    intro base lines
    induction lines with
    | nil =>
      intro _
      simp [resolveStep]
    | cons l ls IH =>
      intro hT
      cases hlm : lineMatch l with
      | none =>
        rw [resolveStep_cons_none _ _ _ _ _ hlm]
        have h2 := IH (fun q hq hfs =>
          hT q (by rwa [linesTargets_cons_none base l ls hlm]) hfs)
        cases hs : resolveStep (fun b c => resolve_includesF fuel fs b c)
            fs base ls with
        | none => exact absurd hs h2
        | some r => simp
      | some name =>
        have hqmem : pjoin base (withTex name) ∈ linesTargets base (l :: ls) := by
          rw [linesTargets_cons_some base l ls name hlm]
          exact List.mem_cons_self _ _
        cases hfs : fs (pjoin base (withTex name)) with
        | none =>
          rw [resolveStep_cons_missing _ _ _ _ _ _ hlm hfs]
          have h2 := IH (fun q hq hfsq =>
            hT q (by
              rw [linesTargets_cons_some base l ls name hlm]
              exact List.mem_cons_of_mem _ hq) hfsq)
          cases hs : resolveStep (fun b c => resolve_includesF fuel fs b c)
              fs base ls with
          | none => exact absurd hs h2
          | some r => simp
        | some inc =>
          rw [resolveStep_cons_found _ _ _ _ _ _ inc hlm hfs]
          have hmq : m (pjoin base (withTex name)) < fuel :=
            hT _ hqmem (by rw [hfs]; simp)
          obtain ⟨f, rfl⟩ : ∃ f, fuel = f + 1 := ⟨fuel - 1, by omega⟩
          have hrec : resolve_includesF (f + 1) fs
              (dirname (pjoin base (withTex name))) inc ≠ none := by
            show (match resolveStep (fun b c => resolve_includesF f fs b c)
                fs (dirname (pjoin base (withTex name))) (splitNl inc) with
              | some ls => some (joinNl ls)
              | none => none) ≠ none
            have hstep := SIH f (by omega)
              (dirname (pjoin base (withTex name))) (splitNl inc)
              (fun r hr hfsr => by
                have hlt := H1 (pjoin base (withTex name)) inc hfs r hr hfsr
                omega)
            cases hs2 : resolveStep (fun b c => resolve_includesF f fs b c)
                fs (dirname (pjoin base (withTex name))) (splitNl inc) with
            | none => exact absurd hs2 hstep
            | some r => simp
          have hrest := IH (fun q hq hfsq =>
            hT q (by
              rw [linesTargets_cons_some base l ls name hlm]
              exact List.mem_cons_of_mem _ hq) hfsq)
          cases h1 : resolve_includesF (f + 1) fs
              (dirname (pjoin base (withTex name))) inc with
          | none => exact absurd h1 hrec
          | some rinc =>
            cases h2 : resolveStep (fun b c => resolve_includesF (f + 1) fs b c)
                fs base ls with
            | none => exact absurd h2 hrest
            | some rest => simp

/-- **C7.**  The include resolver terminates on every file system whose
include graph admits a decreasing measure (fuel exceeding the measure of
the root's targets suffices, so the recursion depth is bounded by the
graph's depth); and it has no cycle guard: on the self-including file
system `fsSelf` (`base/a.tex` contains `\input{a}`) no amount of fuel
produces a result — the embedded image of non-termination. -/
theorem c7_termination_and_cycle :
    (∀ (fs : FS) (m : List Char → Nat) (fuel : Nat) (base content : List Char),
      (∀ p c, fs p = some c → ∀ q ∈ includeTargets (dirname p) c,
        fs q ≠ none → m q < m p) →
      (∀ q ∈ includeTargets base content, fs q ≠ none → m q < fuel) →
      resolve_includesF (fuel + 1) fs base content ≠ none) ∧
    (∀ fuel, resolve_includesF fuel fsSelf (str "base")
        (str "\\input\x7ba\x7d") = none) := by
  constructor
  · intro fs m fuel base content H1 H2
    have hstep := resolveStep_total fs m H1 fuel base (splitNl content)
      (fun q hq hfs => H2 q (by rwa [includeTargets_eq]) hfs)
    show (match resolveStep (fun b c => resolve_includesF fuel fs b c)
        fs base (splitNl content) with
      | some ls => some (joinNl ls)
      | none => none) ≠ none
    cases hs : resolveStep (fun b c => resolve_includesF fuel fs b c)
        fs base (splitNl content) with
    | none => exact absurd hs hstep
    | some r => simp
  · intro fuel
    induction fuel with
    | zero => rfl
    | succ f ih =>
      show (match resolveStep (fun b c => resolve_includesF f fsSelf b c)
          fsSelf (str "base") (splitNl (str "\\input\x7ba\x7d")) with
        | some ls => some (joinNl ls)
        | none => none) = none
      rw [show splitNl (str "\\input\x7ba\x7d") =
          [str "\\input\x7ba\x7d"] from rfl,
        resolveStep_cons_found _ fsSelf (str "base") _ [] (str "a")
          (str "\\input\x7ba\x7d") (by decide) (by decide)]
      rw [show dirname (pjoin (str "base") (withTex (str "a"))) =
          str "base" from by decide,
        ih]

/-- Witness for C7: a one-file acyclic system resolves with fuel 2, using
the constant-zero measure. -/
theorem c7_witness :
    resolve_includesF 2 fsLeaf (str "base") (str "\\input\x7bx\x7d") ≠
      none :=
  c7_termination_and_cycle.1 fsLeaf (fun _ => 0) 1 (str "base")
    (str "\\input\x7bx\x7d")
    (fun p c hp q hq _ => by
      by_cases hpk : p = str "base/x.tex"
      · subst hpk
        rw [show fsLeaf (str "base/x.tex") = some (str "LEAF") from by
          decide] at hp
        injection hp with hc
        subst hc
        rw [show includeTargets (dirname (str "base/x.tex"))
            (str "LEAF") = [] from by decide] at hq
        simp at hq
      · have hnone : fsLeaf p = none := by
          show (if p = str "base/x.tex" then some (str "LEAF") else none) =
            none
          rw [if_neg hpk]
        rw [hnone] at hp
        exact absurd hp (by simp))
    (fun q _ _ => Nat.zero_lt_one)

/-- **C6.**  For a line carrying `\input{name}`/`\include{name}`, the
resolver appends `.tex` when absent and resolves against the base
directory; when the file exists, its content — recursively resolved
relative to its *own* directory — is spliced in place of the whole line;
when it does not exist, the line is kept unmodified and the following
lines are still processed. -/
theorem c6_include_resolution (fuel : Nat) (fs : FS) (base : List Char)
    (pre post : List (List Char)) (dline name : List Char)
    (hpre : ∀ l ∈ pre, lineMatch l = none ∧ '\n' ∉ l)
    (hpost : ∀ l ∈ post, lineMatch l = none ∧ '\n' ∉ l)
    (hd : lineMatch dline = some name) (hdn : '\n' ∉ dline) :
    (fs (pjoin base (withTex name)) = none →
      resolve_includesF (fuel + 1) fs base (joinNl (pre ++ dline :: post)) =
        some (joinNl (pre ++ dline :: post))) ∧
    (∀ inc rinc, fs (pjoin base (withTex name)) = some inc →
      resolve_includesF fuel fs (dirname (pjoin base (withTex name))) inc =
        some rinc →
      resolve_includesF (fuel + 1) fs base (joinNl (pre ++ dline :: post)) =
        some (joinNl (pre ++ rinc :: post))) := by
  have hsplit : splitNl (joinNl (pre ++ dline :: post)) =
      pre ++ dline :: post :=
    splitNl_joinNl _ (by simp) (by
      intro l hl
      rw [List.mem_append] at hl
      rcases hl with h | h
      · exact (hpre l h).2
      · rcases List.mem_cons.mp h with h | h
        · subst h
          exact hdn
        · exact (hpost l h).2)
  constructor
  · intro hfs
    show (match resolveStep (fun b c => resolve_includesF fuel fs b c)
        fs base (splitNl (joinNl (pre ++ dline :: post))) with
      | some ls => some (joinNl ls)
      | none => none) = _
    rw [hsplit,
      resolveStep_pass _ _ _ pre _ (fun l hl => (hpre l hl).1),
      resolveStep_cons_missing _ _ _ _ _ _ hd hfs,
      resolveStep_id _ _ _ post (fun l hl => (hpost l hl).1)]
  · intro inc rinc hfs hrec
    show (match resolveStep (fun b c => resolve_includesF fuel fs b c)
        fs base (splitNl (joinNl (pre ++ dline :: post))) with
      | some ls => some (joinNl ls)
      | none => none) = _
    rw [hsplit,
      resolveStep_pass _ _ _ pre _ (fun l hl => (hpre l hl).1),
      resolveStep_cons_found _ _ _ _ _ _ inc hd hfs]
    rw [hrec, resolveStep_id _ _ _ post (fun l hl => (hpost l hl).1)]

/-- Witness for C6: `\input{sub}` with `base/sub.tex` present and a
missing `\input{gone}`. -/
theorem c6_witness :
    (∀ l ∈ [str "A"], lineMatch l = none ∧ '\n' ∉ l) ∧
    (lineMatch (str "\\input\x7bsub\x7d") = some (str "sub")) ∧
    fsW (pjoin (str "base") (withTex (str "gone"))) = none ∧
    fsW (pjoin (str "base") (withTex (str "sub"))) = some (str "HELLO") ∧
    resolve_includesF 2 fsW (str "base")
        (joinNl ([str "A"] ++ (str "\\input\x7bsub\x7d") :: [str "B"])) =
      some (joinNl ([str "A"] ++ (str "HELLO") :: [str "B"])) ∧
    resolve_includesF 2 fsW (str "base")
        (joinNl ([str "A"] ++ (str "\\input\x7bgone\x7d") :: [str "B"])) =
      some (joinNl ([str "A"] ++ (str "\\input\x7bgone\x7d") :: [str "B"])) :=
  ⟨by decide, by decide, by decide, by decide,
    (c6_include_resolution 1 fsW (str "base") [str "A"] [str "B"]
      (str "\\input\x7bsub\x7d") (str "sub")
      (by decide) (by decide) (by decide) (by decide)).2
      (str "HELLO") (str "HELLO") (by decide) (by decide),
    (c6_include_resolution 1 fsW (str "base") [str "A"] [str "B"]
      (str "\\input\x7bgone\x7d") (str "gone")
      (by decide) (by decide) (by decide) (by decide)).1 (by decide)⟩

/-- **C5, counterexample.**  `resolve_includes` searches the *whole line*
for `\input{...}` (app.py line 261 does not use `split_comment`): on the
line `% \input{foo}` with `base/foo.tex` present, the commented directive
*is* resolved and the whole line is replaced by the file's content, so
markup after an unescaped `%` is acted upon. -/
theorem c5_counterexample :
    resolve_includesF 2 fsFoo (str "base") (str "% \\input\x7bfoo\x7d") =
      some (str "FOO") ∧
    (str "% \\input\x7bfoo\x7d" : List Char) ≠ str "FOO" := by decide

/-- **C5, amended.**  The theorem/multicols rewrite operates only on the
code part of each line and re-appends the comment verbatim; the beamer
flattener also splits comments off and does not act on commented frame
markup, but it strips the re-joined line, so trailing whitespace after a
comment is removed and blank lines are dropped; the include resolver,
however, matches directives on the whole line including comments, so a
commented `\input` whose file exists is resolved. -/
theorem c5_comment_scope (u v : List Char) (hu : goodCode none u = true) :
    processLine (u ++ '%' :: v) = processTheoremLine u ++ '%' :: v ∧
    preprocess_beamer_frames
        (str "\\begin\x7bframe\x7d\n% \\frametitle\x7bX\x7d\nbody\n\\end\x7bframe\x7d") =
      str "% \\frametitle\x7bX\x7d\nbody" ∧
    preprocess_beamer_frames (str "x % hi ") = str "x % hi" ∧
    resolve_includesF 2 fsBar (str "base") (str "% \\input\x7bbar\x7d") =
      some (str "BAR CONTENT") := by
  exact ⟨processLine_split u v hu, by decide, by decide, by decide⟩

/-- Witness for C5. -/
theorem c5_witness :
    goodCode none (str "ab") = true ∧
    processLine (str "ab" ++ '%' :: str " \\input\x7bz\x7d") =
      processTheoremLine (str "ab") ++ '%' :: str " \\input\x7bz\x7d" :=
  ⟨by decide,
    (c5_comment_scope (str "ab") (str " \\input\x7bz\x7d") (by decide)).1⟩

/-- **C9.**  The beamer-frame flattener strips every emitted line and
drops blank lines document-wide: every line of its output list is
non-empty and invariant under `strip`, for every input document
(including lines outside any frame, so pre-existing blank lines are
removed too). -/
theorem c9_beamer_stripped (content : List Char) :
    ∀ l ∈ beamerOutLines content, l ≠ [] ∧ stripWs l = l := by
  intro l hl
  unfold beamerOutLines at hl
  rw [List.mem_filter] at hl
  obtain ⟨hmem, hne⟩ := hl
  constructor
  · intro h
    subst h
    simp at hne
  · exact beamerFold_out (splitNl content) (false, false) l hmem

/-- Witness for C9 on a small document with a frame, indentation and a
blank line. -/
theorem c9_witness :
    (str "after" ∈ beamerOutLines
      (str "\\begin\x7bframe\x7d\x7bT\x7d\n  x\n\n\\end\x7bframe\x7d\nafter")) ∧
    ((str "after" : List Char) ≠ [] ∧ stripWs (str "after") = str "after") :=
  ⟨by decide,
    c9_beamer_stripped
      (str "\\begin\x7bframe\x7d\x7bT\x7d\n  x\n\n\\end\x7bframe\x7d\nafter")
      (str "after") (by decide)⟩

/-- **C10.**  In `convert_latex_simple` the TikZ step is invoked
unconditionally and `preprocess_tikz` raises as its *first* action when
`pdflatex` or `pdftoppm` is missing — before any search for tikzpicture
blocks — so the whole conversion fails with the tool error for *every*
input document, including documents containing no tikzpicture at all. -/
theorem c10_tikz_gate (pdflatexOk pdftoppmOk : Bool) (render : Nat → Bool)
    (pandoc : List Char → Except (List Char) Unit) (content : List Char)
    (h : pdflatexOk = false ∨ pdftoppmOk = false) :
    convert_latex_simple pdflatexOk pdftoppmOk render pandoc content =
      Except.error (str "Conversion failed: " ++ tikzErrMsg) := by
  have htz : ∀ x : List Char,
      preprocess_tikz_simple pdflatexOk pdftoppmOk render x =
        Except.error tikzErrMsg := by
    intro x
    unfold preprocess_tikz_simple
    rcases h with h | h <;> rw [h] <;> simp
  unfold convert_latex_simple
  dsimp only
  rw [htz]

/-- Witness for C10: missing `pdflatex`, and a document with no
tikzpicture at all. -/
theorem c10_witness :
    convert_latex_simple false true (fun _ => true)
        (fun _ => Except.ok ()) (str "Hello world") =
      Except.error (str "Conversion failed: " ++ tikzErrMsg) :=
  c10_tikz_gate false true (fun _ => true) (fun _ => Except.ok ())
    (str "Hello world") (Or.inl rfl)

end L2H
